import Mathlib

/-!
Shallow embedding of the result-tree conversion and aggregation engine of the
mobly-android-partner-tools repository.

Source files modelled here:
* `src/results_uploader/src/mobly_result_converter.py` — the converter that
  turns a Mobly summary into a Resultstore XML tree (rerun resolution, tree
  building, property merging, sanitization).
* `src/src/results_uploader/results_uploader.py` — the status aggregation that
  re-reads the built tree (`_aggregate_testcase_iteration_results`,
  `_aggregate_subtest_results`, `_get_test_status_from_xml`).

Python strings are modelled as lists of Unicode code points (`PyStr`), since
Python strings may carry surrogate code points that Lean's `String` cannot
represent.  Python dicts are modelled as association lists with
replace-in-place insertion (`insertA`), which preserves Python's dict
insertion-order semantics.  Python exceptions (`KeyError`, `RecursionError`)
are modelled with `Except`, the recursion depth with an explicit fuel
parameter.
-/

set_option autoImplicit false

/-- A Python string: a sequence of Unicode code points. -/
abbrev PyStr := List Nat

/-- Embeds a Lean string literal as a `PyStr`. -/
def pystr (s : String) : PyStr := s.data.map Char.toNat

/-- Decimal rendering of an integer, as Python `str(i)`. -/
def pystrOfInt (i : Int) : PyStr := pystr (toString i)

/-- Decimal rendering of a natural number, as Python `str(n)`. -/
def pystrOfNat (n : Nat) : PyStr := pystr (toString n)

/-- Python `f'...{o}...'` rendering of an optional string: `None` prints as
the four characters `None`. -/
def pyFormatOpt (o : Option PyStr) : PyStr :=
  match o with
  | none => pystr "None"
  | some s => s

/-- Membership of a code point in the `_ILLEGAL_XML_CHARS` regex character
class of mobly_result_converter.py:
`[\x00-\x08\x0b\x0c\x0e-\x1F\uD800-\uDFFF￾￿]`. -/
def isIllegalXmlChar (n : Nat) : Bool :=
  n ≤ 0x08 || n == 0x0b || n == 0x0c || (0x0e ≤ n && n ≤ 0x1f) ||
    (0xd800 ≤ n && n ≤ 0xdfff) || n == 0xfffe || n == 0xffff

/-- Membership of a code point in the `_ILLEGAL_YAML_CHARS` regex character
class: `[\x00-\x08\x0b\x0c\x0e-\x1f\x7f-\x9f]`. -/
def isIllegalYamlChar (n : Nat) : Bool :=
  n ≤ 0x08 || n == 0x0b || n == 0x0c || (0x0e ≤ n && n ≤ 0x1f) ||
    (0x7f ≤ n && n ≤ 0x9f)

/-- `_ILLEGAL_XML_CHARS.sub('', s)`: removes every illegal XML code point. -/
def sanitizeXml (s : PyStr) : PyStr := s.filter (fun n => !isIllegalXmlChar n)

/-- `_ILLEGAL_YAML_CHARS.sub('', s)`: removes every illegal YAML code point
(applied to the whole summary file before parsing). -/
def sanitizeYaml (s : PyStr) : PyStr := s.filter (fun n => !isIllegalYamlChar n)

/-- Everything strictly before the last `'_'` of the list, or `none` when the
list contains no `'_'` (code point 95). -/
def beforeLastUnderscore : List Nat → Option (List Nat)
  | [] => none
  | c :: rest =>
    match beforeLastUnderscore rest with
    | some r => some (c :: r)
    | none => if c = 95 then some [] else none

/-- Python `s.rsplit('_', 1)[0]`: everything before the last underscore, or
the whole string when it has no underscore.  This is what the converter
applies to the name of a repeat-chain root. -/
def pyRsplitUnderscoreHead (s : PyStr) : PyStr :=
  match beforeLastUnderscore s with
  | some r => r
  | none => s

/-- Code point of a decimal digit. -/
def isDigitCp (n : Nat) : Bool := 48 ≤ n && n ≤ 57

/-- Modelled from the spec: the original name of a repeat root is "its raw
name with the trailing `_<integer>` suffix stripped (one suffix only)".  The
suffix is removed only when it is actually an underscore followed by a
non-empty run of digits; otherwise the name is unchanged.  This definition
follows the spec's words and exists to be compared with
`pyRsplitUnderscoreHead`, which is what the source code does. -/
def specStripRepeatSuffix (s : PyStr) : PyStr :=
  let rev := s.reverse
  let digits := rev.takeWhile isDigitCp
  let rest := rev.dropWhile isDigitCp
  if digits = [] then s
  else
    match rest with
    | 95 :: r => r.reverse
    | _ => s

/-- Aggregate status of the Resultstore invocation
(`resultstore_client.Status`). -/
inductive Status where
  | passed
  | failed
  | skipped
  | flaky
  | unknown
deriving DecidableEq, Repr

/-- `_aggregate_testcase_iteration_results` from results_uploader.py:
determines the aggregate result from a list of test case iterations.
`iterationsFailed` is the Python list comprehension
`[result == _Status.FAILED for result in iteration_results if result != _Status.SKIPPED]`. -/
def aggregateTestcaseIterationResults (iterationResults : List Status) : Status :=
  let iterationsFailed :=
    (iterationResults.filter (fun r => r != Status.skipped)).map
      (fun r => r == Status.failed)
  if iterationsFailed.isEmpty then Status.skipped
  else if iterationsFailed.all (fun b => b) then Status.failed
  else if iterationsFailed.any (fun b => b) then Status.flaky
  else Status.passed

/-- The scanning loop of `_aggregate_subtest_results`: return Failed at the
first Failed element, record whether any element was Flaky, and at the end
return Flaky if one was, else Passed. -/
def subtestScanLoop : List Status → Bool → Status
  | [], anyFlaky => if anyFlaky then Status.flaky else Status.passed
  | r :: rest, anyFlaky =>
    if r = Status.failed then Status.failed
    else subtestScanLoop rest (anyFlaky || (r == Status.flaky))

/-- `_aggregate_subtest_results` from results_uploader.py: determines the
aggregate result from a list of subtest nodes. -/
def aggregateSubtestResults (subtestResults : List Status) : Status :=
  if subtestResults.all (fun r => r == Status.skipped) then Status.skipped
  else subtestScanLoop subtestResults false

example : aggregateTestcaseIterationResults [.passed, .failed] = .flaky := by decide
example : aggregateTestcaseIterationResults [.failed, .failed] = .failed := by decide
example : aggregateTestcaseIterationResults [.skipped, .skipped] = .skipped := by decide
example : aggregateTestcaseIterationResults [.passed, .skipped] = .passed := by decide
example : aggregateSubtestResults [.skipped, .skipped] = .skipped := by decide
example : aggregateSubtestResults [.skipped, .failed] = .failed := by decide
example : aggregateSubtestResults [.flaky, .passed] = .flaky := by decide
example : aggregateSubtestResults [.passed, .unknown] = .passed := by decide

/-- An XML element as built by `xml.etree.ElementTree`: a tag, an ordered
attribute mapping, optional text, and an ordered list of child elements.
Tag and attribute names are fixed program constants (`ResultstoreTreeTags`,
`ResultstoreTreeAttributes`), so they are Lean string literals; attribute
values and text are Python strings (`PyStr`). -/
inductive XmlTree where
  | elem (tag : String) (attrs : List (String × PyStr)) (text : Option PyStr)
      (children : List XmlTree)

/-- The tag of an element. -/
def XmlTree.tag : XmlTree → String
  | .elem t _ _ _ => t

/-- The attribute list of an element. -/
def XmlTree.attrs : XmlTree → List (String × PyStr)
  | .elem _ a _ _ => a

/-- The text of an element. -/
def XmlTree.text : XmlTree → Option PyStr
  | .elem _ _ x _ => x

/-- The children of an element. -/
def XmlTree.children : XmlTree → List XmlTree
  | .elem _ _ _ c => c

/-- First value bound to a key in an ordered attribute list. -/
def lookupAttrList : List (String × PyStr) → String → Option PyStr
  | [], _ => none
  | (k, v) :: rest, key => if k = key then some v else lookupAttrList rest key

/-- `element.get(key)`: the value of an attribute, if set. -/
def XmlTree.getAttr (t : XmlTree) (key : String) : Option PyStr :=
  lookupAttrList t.attrs key

/-- Replace the first binding of `key`, or append a new binding at the end;
the semantics of `element.set(key, value)` on ElementTree's attribute dict. -/
def setAttrList : List (String × PyStr) → String → PyStr → List (String × PyStr)
  | [], key, v => [(key, v)]
  | (k, v') :: rest, key, v =>
    if k = key then (key, v) :: rest else (k, v') :: setAttrList rest key v

/-- `element.set(key, value)`. -/
def XmlTree.setAttr (t : XmlTree) (key : String) (v : PyStr) : XmlTree :=
  match t with
  | .elem tg a x c => .elem tg (setAttrList a key v) x c

/-- Apply `f` to every child of an element. -/
def XmlTree.mapChildren (t : XmlTree) (f : XmlTree → XmlTree) : XmlTree :=
  match t with
  | .elem tg a x c => .elem tg a x (c.map f)

/-- First element of a list satisfying a decidable predicate. -/
def findFirstWhere (q : XmlTree → Prop) [DecidablePred q] : List XmlTree → Option XmlTree
  | [] => none
  | c :: cs => if q c then some c else findFirstWhere q cs

/-- Rewrite the first element satisfying `q` with `f`; `none` when no element
matches.  Models in-place mutation of one element found by `element.find`. -/
def updateFirstWhere (q : XmlTree → Prop) [DecidablePred q] (f : XmlTree → XmlTree) :
    List XmlTree → Option (List XmlTree)
  | [] => none
  | c :: cs =>
    if q c then some (f c :: cs)
    else (updateFirstWhere q f cs).map (fun cs' => c :: cs')

/-- `element.find('./tag')`: the first direct child with the given tag. -/
def XmlTree.findChildByTag (t : XmlTree) (tg : String) : Option XmlTree :=
  findFirstWhere (fun c => c.tag = tg) t.children

/-- The values of the `MoblyResultstoreProperties` enum
(`_MOBLY_PROPERTY_VALUES`): reserved framework property names that USER_DATA
entries may not override. -/
def moblyPropertyValues : List PyStr :=
  [pystr "mobly_begin_time", pystr "mobly_end_time", pystr "mobly_test_class",
   pystr "test_type", pystr "mobly_uid", pystr "test_output",
   pystr "mobly_signature", pystr "skip_reason", pystr "mobly_error_message",
   pystr "mobly_error_type", pystr "mobly_stack_trace"]

/-- A fresh, empty `<properties>` element. -/
def emptyPropertiesElem : XmlTree := .elem "properties" [] none []

/-- The xpath predicate `./property[@name="..."]`: a `<property>` element
carrying the given name. -/
def isPropNamed (n : PyStr) (c : XmlTree) : Prop :=
  c.tag = "property" ∧ c.getAttr "name" = some n

instance (n : PyStr) (c : XmlTree) : Decidable (isPropNamed n c) :=
  inferInstanceAs (Decidable (_ ∧ _))

/-- `_add_or_update_property_element(properties_element, name, value)` acting
on the properties element: sanitize name and value with the illegal-XML
regex, then update the value of the first `<property>` child carrying the
sanitized name, or append a new `<property name=... value=...>` child. -/
def addOrUpdatePropertyEl (pe : XmlTree) (n v : PyStr) : XmlTree :=
  match pe with
  | .elem tg a x children =>
    match updateFirstWhere (isPropNamed (sanitizeXml n))
        (fun c => c.setAttr "value" (sanitizeXml v)) children with
    | some children' => .elem tg a x children'
    | none =>
      .elem tg a x
        (children ++
          [.elem "property"
            [("name", sanitizeXml n), ("value", sanitizeXml v)] none []])

/-- The per-element body of the USER_DATA loop in `convert`:
`_create_or_return_properties_element(element)` (reuse the first
`<properties>` child or append a fresh one), then for each key/value pair
skip it when the key is a reserved Mobly property name and otherwise
`_add_or_update_property_element`.  `mergePropStep` is the loop body for one
key/value pair. -/
def mergePropStep (pe : XmlTree) (p : PyStr × PyStr) : XmlTree :=
  if p.1 ∈ moblyPropertyValues then pe
  else addOrUpdatePropertyEl pe p.1 p.2

/-- The whole per-element body: reuse or create the `<properties>` child,
then fold `mergePropStep` over the entry's property pairs. -/
def applyPropsToElement (e : XmlTree) (props : List (PyStr × PyStr)) : XmlTree :=
  match e with
  | .elem tg a x children =>
    match updateFirstWhere (fun c => c.tag = "properties")
        (fun pe => props.foldl mergePropStep pe) children with
    | some children' => .elem tg a x children'
    | none =>
      .elem tg a x (children ++ [props.foldl mergePropStep emptyPropertiesElem])

/-- The xpath name filter `[@name="class_name"]` on a `testsuite` child;
trivially true when no class name is given. -/
def suiteNameMatches (className : Option PyStr) (suite : XmlTree) : Bool :=
  match className with
  | none => true
  | some cn => suite.getAttr "name" = some cn

/-- One USER_DATA entry applied to the Mobly root element, combining
`_find_all_elements` (an xpath over direct `testsuite` children, and their
direct `testcase` children when a test name is given) with the per-element
property merge.  An entry whose `properties` field is not a dict is skipped
(`props?` = `none`); when class and test name are both absent the properties
go onto the Mobly root itself. -/
def applyUserDataEntry (root : XmlTree) (className testName : Option PyStr)
    (props? : Option (List (PyStr × PyStr))) : XmlTree :=
  match props? with
  | none => root
  | some props =>
    match className, testName with
    | none, none => applyPropsToElement root props
    | _, _ =>
      root.mapChildren (fun suite =>
        if suite.tag = "testsuite" ∧ suiteNameMatches className suite then
          match testName with
          | none => applyPropsToElement suite props
          | some tn =>
            suite.mapChildren (fun tc =>
              if tc.tag = "testcase" ∧ tc.getAttr "name" = some tn then
                applyPropsToElement tc props
              else tc)
        else suite)

/-- An association list keyed by test signatures, modelling a Python dict. -/
abbrev PyDict (α : Type) := List (PyStr × α)

/-- First value bound to a key (Python `d[k]` / `d.get(k)`). -/
def lookupA {α : Type} : PyDict α → PyStr → Option α
  | [], _ => none
  | (k, v) :: rest, key => if k = key then some v else lookupA rest key

/-- `d[k] = v` on a Python dict: replace the value in place when the key is
present (keeping its position), otherwise append the binding at the end. -/
def insertA {α : Type} : PyDict α → PyStr → α → PyDict α
  | [], key, v => [(key, v)]
  | (k, v') :: rest, key, v =>
    if k = key then (key, v) :: rest else (k, v') :: insertA rest key v

/-- `records.TestParentType`: the kind of a rerun chain. -/
inductive TestParentType where
  | retry
  | repeat
deriving DecidableEq, Repr

/-- `records.TestResultEnums.TEST_RESULT_*`: the result of one record.  A
Python `None` result (interrupted test) is `Option.none` at the use sites. -/
inductive MoblyResult where
  | pass
  | fail
  | error
  | skip
deriving DecidableEq, Repr

/-- One entry of a record's `extra_errors` mapping: position, details and
optional stack trace.  The mapping key is ignored by the converter, so only
the values are kept, in mapping iteration order. -/
structure ExtraErrorEntry where
  position : PyStr
  details : Option PyStr
  stackTrace : Option PyStr
deriving DecidableEq, Repr

/-- A Mobly summary entry of type RECORD, with the fields the converter
reads.  `signature` is `none` when the record carries no
`RECORD_SIGNATURE` key; `parent` is the optional `{'parent': sig,
'type': str}` dict, with the type kept as its raw string;
`extraErrors` is `none` when the record's `extra_errors` field is None. -/
structure RecordEntry where
  className : PyStr
  testName : PyStr
  signature : Option PyStr
  parent : Option (PyStr × PyStr)
  result : Option MoblyResult
  beginTime : Int
  endTime : Int
  details : Option PyStr
  uid : Option PyStr
  terminationSignalType : Option PyStr
  stackTrace : Option PyStr
  extraErrors : Option (List ExtraErrorEntry)
deriving DecidableEq, Repr

/-- `ReranNode` from mobly_result_converter.py: resolved rerun information
for one signature. -/
structure ReranNode where
  reranTestName : PyStr
  originalTestName : PyStr
  index : Nat
  nodeType : TestParentType
deriving DecidableEq, Repr

/-- `RETRY if rerun_parent['type'] == 'retry' else REPEAT`. -/
def parentTypeOfRaw (t : PyStr) : TestParentType :=
  if t = pystr "retry" then .retry else .repeat

/-- The failure modes of rerun resolution: `keyError` models a Python
`KeyError` on a missing dict key, `depthExceeded` models exhausting the
recursion depth (Python's `RecursionError`). -/
inductive ResolveErr where
  | keyError
  | depthExceeded
deriving DecidableEq, Repr

/-- The map-building loop of `_get_reran_nodes`: for every entry carrying a
signature, record `signature → test name`; for entries that also declare a
parent, record `signature → parent signature` and
`parent signature → parent type`.  Returns
`(child_parent_map, parent_type_map, signature_test_name_map)`. -/
def buildRerunMapsStep
    (maps : PyDict PyStr × PyDict TestParentType × PyDict PyStr)
    (e : RecordEntry) : PyDict PyStr × PyDict TestParentType × PyDict PyStr :=
  match e.signature with
  | none => maps
  | some sig =>
    let stnm := insertA maps.2.2 sig e.testName
    match e.parent with
    | none => (maps.1, maps.2.1, stnm)
    | some (psig, ptype) =>
      (insertA maps.1 sig psig,
       insertA maps.2.1 psig (parentTypeOfRaw ptype), stnm)

/-- The three maps built by the first loop of `_get_reran_nodes`. -/
def buildRerunMaps (entries : List RecordEntry) :
    PyDict PyStr × PyDict TestParentType × PyDict PyStr :=
  entries.foldl buildRerunMapsStep ([], [], [])

/-- The child-to-parent map built from the record entries. -/
def cpmOf (entries : List RecordEntry) : PyDict PyStr := (buildRerunMaps entries).1

/-- The parent-type map built from the record entries. -/
def ptmOf (entries : List RecordEntry) : PyDict TestParentType :=
  (buildRerunMaps entries).2.1

/-- The signature-to-test-name map built from the record entries. -/
def stnmOf (entries : List RecordEntry) : PyDict PyStr := (buildRerunMaps entries).2.2

/-- `_set_rerun_node(signature, ...)`: recursively resolve the rerun chain of
a signature, memoizing resolved nodes in `rnm`.  The Python function recurses
without any cycle guard, so the embedding takes an explicit `fuel` bound;
`fuel = 0` (`depthExceeded`) corresponds to blowing the recursion limit.
A failing dict lookup (`child_parent_map`, `parent_type_map`,
`signature_test_name_map` or `rerun_node_map[parent_signature]`) is a Python
`KeyError`, modelled as `.error .keyError`. -/
def setRerunNode : Nat → PyStr → PyDict PyStr → PyDict TestParentType →
    PyDict PyStr → PyDict ReranNode → Except ResolveErr (PyDict ReranNode)
  | 0, _, _, _, _, _ => .error .depthExceeded
  | fuel + 1, signature, cpm, ptm, stnm, rnm =>
    if (lookupA rnm signature).isSome then .ok rnm
    else
      match lookupA cpm signature with
      | none =>
        match lookupA ptm signature with
        | none => .error .keyError
        | some ptype =>
          match lookupA stnm signature with
          | none => .error .keyError
          | some name =>
            .ok (insertA rnm signature
              ⟨name,
               if ptype = TestParentType.repeat then pyRsplitUnderscoreHead name
               else name,
               0, ptype⟩)
      | some psig =>
        match setRerunNode fuel psig cpm ptm stnm rnm with
        | .error e => .error e
        | .ok rnm' =>
          match lookupA rnm' psig with
          | none => .error .keyError
          | some parentNode =>
            match lookupA stnm signature with
            | none => .error .keyError
            | some name =>
              .ok (insertA rnm' signature
                ⟨name, parentNode.originalTestName, parentNode.index + 1,
                 parentNode.nodeType⟩)

/-- The final loop of `_get_reran_nodes`: resolve every signature that
appears as a key of the child-to-parent map, threading the memo map and
propagating the first raised exception. -/
def resolveAll (fuel : Nat) (cpm : PyDict PyStr) (ptm : PyDict TestParentType)
    (stnm : PyDict PyStr) :
    List PyStr → PyDict ReranNode → Except ResolveErr (PyDict ReranNode)
  | [], rnm => .ok rnm
  | k :: ks, rnm =>
    match setRerunNode fuel k cpm ptm stnm rnm with
    | .error e => .error e
    | .ok rnm' => resolveAll fuel cpm ptm stnm ks rnm'

/-- `_get_reran_nodes(entries)`: build the three signature maps, then resolve
each key of the child-to-parent map in insertion order. -/
def getReranNodes (fuel : Nat) (entries : List RecordEntry) :
    Except ResolveErr (PyDict ReranNode) :=
  resolveAll fuel (cpmOf entries) (ptmOf entries) (stnmOf entries)
    ((cpmOf entries).map (fun p => p.1)) []

/-- Left-pad a decimal rendering with `'0'` (code point 48) to a width, as
the zero-padded fields of `strftime`. -/
def padZeros (w : Nat) (s : PyStr) : PyStr := List.replicate (w - s.length) 48 ++ s

/-- `datetime.datetime.fromtimestamp(begin_time / 1000, tz=datetime.timezone.utc)
.strftime('%Y-%m-%dT%H:%M:%SZ')`: the ISO-8601 UTC timestamp attribute, at
second precision, computed from epoch milliseconds with the standard
civil-from-days calendar conversion. -/
def timestampAttr (beginTimeMs : Int) : PyStr :=
  let t := Int.fdiv beginTimeMs 1000
  let days := Int.fdiv t 86400
  let sod := t - days * 86400
  let z := days + 719468
  let era := Int.fdiv z 146097
  let doe := z - era * 146097
  let yoe :=
    Int.fdiv (doe - Int.fdiv doe 1460 + Int.fdiv doe 36524 - Int.fdiv doe 146096) 365
  let doy := doe - (365 * yoe + Int.fdiv yoe 4 - Int.fdiv yoe 100)
  let mp := Int.fdiv (5 * doy + 2) 153
  let d := doy - Int.fdiv (153 * mp + 2) 5 + 1
  let m := mp + (if mp < 10 then 3 else -9)
  let y := yoe + era * 400 + (if m ≤ 2 then 1 else 0)
  padZeros 4 (pystrOfInt y) ++ pystr "-" ++ padZeros 2 (pystrOfInt m) ++
    pystr "-" ++ padZeros 2 (pystrOfInt d) ++ pystr "T" ++
    padZeros 2 (pystrOfInt (Int.fdiv sod 3600)) ++ pystr ":" ++
    padZeros 2 (pystrOfInt (Int.fdiv (Int.emod sod 86400) 60 % 60)) ++ pystr ":" ++
    padZeros 2 (pystrOfInt (Int.emod sod 60)) ++ pystr "Z"

example : timestampAttr 0 = pystr "1970-01-01T00:00:00Z" := by decide
example : timestampAttr 1700000000000 = pystr "2023-11-14T22:13:20Z" := by decide

/-- `_TEST_INTERRUPTED_MESSAGE`. -/
def testInterruptedMessage : PyStr := pystr "Details: Test was interrupted manually."

/-- Replace the text of an element. -/
def XmlTree.withText (t : XmlTree) (x : Option PyStr) : XmlTree :=
  match t with
  | .elem tg a _ c => .elem tg a x c

/-- The Fail/Error part of `_process_record`: build the `<failure>`/`<error>`
child with message `'Details: ' + details`, add `mobly_error_message` to the
properties, then (when present) the termination signal type as an attribute
and property, and the stack trace as element text and property.  A missing
signal type or stack trace is only logged, and that field is omitted.
Returns the updated properties element and the child. -/
def mkFailureOrError (pe : XmlTree) (tg : String) (entry : RecordEntry) :
    XmlTree × List XmlTree :=
  let errorMessage := pystr "Details: " ++ pyFormatOpt entry.details
  let fe0 : XmlTree := .elem tg [("message", errorMessage)] none []
  let pe1 := addOrUpdatePropertyEl pe (pystr "mobly_error_message") errorMessage
  let step1 : XmlTree × XmlTree :=
    match entry.terminationSignalType with
    | none => (fe0, pe1)
    | some tst =>
      (fe0.setAttr "type" tst, addOrUpdatePropertyEl pe1 (pystr "mobly_error_type") tst)
  let step2 : XmlTree × XmlTree :=
    match entry.stackTrace with
    | none => step1
    | some st =>
      (step1.1.withText (some st),
       addOrUpdatePropertyEl step1.2 (pystr "mobly_stack_trace") st)
  (step2.2, [step2.1])

/-- `_process_record(entry, reran_node, mobly_base_directory=None)`: convert
one Mobly test record into a Resultstore `<testcase>` element.  The Mobly
base directory is not configured here, so `_add_file_annotations` returns
immediately and adds nothing. -/
def processRecord (entry : RecordEntry) (reranNode : Option ReranNode) : XmlTree :=
  let result := entry.result
  let tc0 : XmlTree := .elem "testcase" [] none []
  let tc1 :=
    match reranNode with
    | some rn =>
      let tcNum :=
        if rn.nodeType = TestParentType.retry then tc0.setAttr "retrynumber" (pystrOfNat rn.index)
        else tc0.setAttr "repeatnumber" (pystrOfNat rn.index)
      (tcNum.setAttr "name" rn.originalTestName).setAttr "rerantestname"
        rn.reranTestName
    | none =>
      (tc0.setAttr "name" entry.testName).setAttr "rerantestname" entry.testName
  let tc2 := tc1.setAttr "classname" entry.className
  let tc3 :=
    match result with
    | some MoblyResult.skip =>
      ((tc2.setAttr "result" (pystr "skipped")).setAttr "status"
        (pystr "notrun")).setAttr "time" (pystr "0")
    | none =>
      (((tc2.setAttr "result" (pystr "completed")).setAttr "status"
        (pystr "run")).setAttr "time" (pystr "0")).setAttr "timestamp"
        (timestampAttr entry.beginTime)
    | some _ =>
      (((tc2.setAttr "result" (pystr "completed")).setAttr "status"
        (pystr "run")).setAttr "time"
        (pystrOfInt (entry.endTime - entry.beginTime))).setAttr "timestamp"
        (timestampAttr entry.beginTime)
  let pe1 :=
    match result with
    | some MoblyResult.skip =>
      addOrUpdatePropertyEl emptyPropertiesElem (pystr "skip_reason")
        (pystr "Details: " ++ pyFormatOpt entry.details)
    | none =>
      addOrUpdatePropertyEl emptyPropertiesElem (pystr "mobly_begin_time")
        (pystrOfInt entry.beginTime)
    | some _ =>
      addOrUpdatePropertyEl
        (addOrUpdatePropertyEl emptyPropertiesElem (pystr "mobly_begin_time")
          (pystrOfInt entry.beginTime))
        (pystr "mobly_end_time") (pystrOfInt entry.endTime)
  let pe2 := addOrUpdatePropertyEl pe1 (pystr "mobly_test_class") entry.className
  let pe3 := addOrUpdatePropertyEl pe2 (pystr "test_type") (pystr "mobly_test")
  let pe4 :=
    match entry.signature with
    | some sig => addOrUpdatePropertyEl pe3 (pystr "mobly_signature") sig
    | none => pe3
  let pe5 :=
    match entry.uid with
    | some uid => addOrUpdatePropertyEl pe4 (pystr "mobly_uid") uid
    | none => pe4
  let peAndFail : XmlTree × List XmlTree :=
    match result with
    | none =>
      (pe5, [XmlTree.elem "error" [("message", testInterruptedMessage)]
        (some testInterruptedMessage) []])
    | some MoblyResult.fail => mkFailureOrError pe5 "failure" entry
    | some MoblyResult.error => mkFailureOrError pe5 "error" entry
    | some _ => (pe5, [])
  let extraChildren :=
    match entry.extraErrors with
    | none => []
    | some errs =>
      errs.map (fun (ed : ExtraErrorEntry) =>
        XmlTree.elem "error"
          [("message", pystr "Error occurred at " ++ ed.position ++
            pystr ".\nDetails: " ++ pyFormatOpt ed.details)]
          ed.stackTrace [])
  match tc3 with
  | .elem tg a x _ => .elem tg a x (peAndFail.1 :: (peAndFail.2 ++ extraChildren))

/-- The per-testcase classification inside `_get_test_status_from_xml`
(results_uploader.py): a case starts as Passed, becomes Skipped when its
`result` attribute is `skipped`, and becomes Failed when it has a direct
`<failure>` or `<error>` child — the child check runs last and overrides the
skipped classification. -/
def caseStatusFromXml (tc : XmlTree) : Status :=
  let r1 :=
    if tc.getAttr "result" = some (pystr "skipped") then Status.skipped
    else Status.passed
  if (tc.findChildByTag "failure").isSome ∨ (tc.findChildByTag "error").isSome then
    Status.failed
  else r1

/-- A Mobly summary entry of type USER_DATA: optional class and test name
targets and a free-form property mapping (`none` when the `properties` field
is missing or not a dict). -/
structure UserDataEntry where
  className : Option PyStr
  testName : Option PyStr
  properties : Option (List (PyStr × PyStr))
deriving DecidableEq, Repr

/-- A parsed document of the Mobly summary YAML stream, classified by its
`Type` field. -/
inductive SummaryEntry where
  | summary (requested errored failed : Int)
  | record (r : RecordEntry)
  | userData (u : UserDataEntry)
deriving DecidableEq, Repr

/-- The failure modes of `convert`: no SUMMARY entry in the stream
(`next` raises StopIteration), or an exception escaping rerun resolution. -/
inductive ConvertError where
  | noSummaryEntry
  | resolve (e : ResolveErr)
deriving DecidableEq, Repr

/-- `next(entry for entry in summary_entries if entry['Type'] == SUMMARY)`:
the first summary entry's `(Requested, Error, Failed)` counts. -/
def findSummary : List SummaryEntry → Option (Int × Int × Int)
  | [] => none
  | .summary r e f :: _ => some (r, e, f)
  | _ :: rest => findSummary rest

/-- The RECORD entries of the stream, in order. -/
def recordsOf (entries : List SummaryEntry) : List RecordEntry :=
  entries.filterMap (fun e =>
    match e with
    | .record r => some r
    | _ => none)

/-- The USER_DATA entries of the stream, in order. -/
def userDataOf (entries : List SummaryEntry) : List UserDataEntry :=
  entries.filterMap (fun e =>
    match e with
    | .userData u => some u
    | _ => none)

/-- `TestSuiteSummary` from mobly_result_converter.py. -/
structure TestSuiteSummary where
  numTests : Int
  numErrors : Int
  numFailures : Int
deriving DecidableEq, Repr

/-- The class-summary loop of `convert`: one `TestSuiteSummary` per distinct
class name in first-seen order; `num_tests` counts every record of the
class, `num_errors` counts exact Error results, `num_failures` exact Fail
results. -/
def buildClassSummaries (records : List RecordEntry) : PyDict TestSuiteSummary :=
  records.foldl
    (fun cs e =>
      let cur :=
        match lookupA cs e.className with
        | some s => s
        | none => TestSuiteSummary.mk 0 0 0
      let cur1 := { cur with numTests := cur.numTests + 1 }
      let cur2 :=
        if e.result = some MoblyResult.error then
          { cur1 with numErrors := cur1.numErrors + 1 }
        else if e.result = some MoblyResult.fail then
          { cur1 with numFailures := cur1.numFailures + 1 }
        else cur1
      insertA cs e.className cur2)
    []

/-- `_create_class_element(class_name, class_summary)`: a `testsuite` element
with the class tallies and a properties bag carrying `mobly_test_class` and
`test_type = mobly_class`. -/
def createClassElement (className : PyStr) (s : TestSuiteSummary) : XmlTree :=
  let e0 : XmlTree := .elem "testsuite" [] none []
  let e1 :=
    ((((e0.setAttr "name" className).setAttr "time" (pystr "0")).setAttr
      "tests" (pystrOfInt s.numTests)).setAttr "errors"
      (pystrOfInt s.numErrors)).setAttr "failures" (pystrOfInt s.numFailures)
  let pe :=
    addOrUpdatePropertyEl
      (addOrUpdatePropertyEl emptyPropertiesElem (pystr "mobly_test_class")
        className)
      (pystr "test_type") (pystr "mobly_class")
  match e1 with
  | .elem tg a x c => .elem tg a x (c ++ [pe])

/-- The `testsuite` node for the whole Mobly test built by
`_create_mobly_root_element` (before its properties element and class nodes
are appended). -/
def createMoblyTestRoot (requested errored failed : Int) : XmlTree :=
  let e0 : XmlTree := .elem "testsuite" [] none []
  ((((e0.setAttr "name" (pystr "MoblyTest")).setAttr "time"
    (pystr "0")).setAttr "errors" (pystrOfInt errored)).setAttr "failures"
    (pystrOfInt failed)).setAttr "tests" (pystrOfInt requested)

/-- The outer `testsuites` wrapper built by `_create_mobly_root_element`,
holding the Mobly test root as its only child. -/
def createMainWrapper (requested errored failed : Int) (testRoot : XmlTree) :
    XmlTree :=
  let e0 : XmlTree := .elem "testsuites" [] none []
  let e1 :=
    ((((e0.setAttr "name" (pystr "__main__")).setAttr "time"
      (pystr "0")).setAttr "errors" (pystrOfInt errored)).setAttr "failures"
      (pystrOfInt failed)).setAttr "tests" (pystrOfInt requested)
  match e1 with
  | .elem tg a x _ => .elem tg a x [testRoot]

/-- `convert(mobly_results_path, mobly_base_directory=None)` after YAML
loading: classify the summary entries, build the root and class nodes,
resolve reruns, render each record as a testcase under its class, and apply
the USER_DATA entries.  With no base directory the file-annotation passes
add nothing.  An exception raised by rerun resolution propagates out of the
conversion (there is no handler in `convert`). -/
def convertEntries (fuel : Nat) (entries : List SummaryEntry) :
    Except ConvertError XmlTree :=
  match findSummary entries with
  | none => .error .noSummaryEntry
  | some (requested, errored, failed) =>
    let records := recordsOf entries
    let classSummaries := buildClassSummaries records
    match getReranNodes fuel records with
    | .error e => .error (.resolve e)
    | .ok reranNodes =>
      let classElems := classSummaries.map (fun p =>
        let cases := (records.filter (fun r => r.className = p.1)).map (fun r =>
          let rn :=
            match r.signature with
            | some sig => lookupA reranNodes sig
            | none => none
          processRecord r rn)
        match createClassElement p.1 p.2 with
        | .elem tg a x c => XmlTree.elem tg a x (c ++ cases))
      let moblyRoot1 :=
        match createMoblyTestRoot requested errored failed with
        | .elem tg a x c => XmlTree.elem tg a x (c ++ [emptyPropertiesElem] ++ classElems)
      let moblyRootFinal :=
        (userDataOf entries).foldl
          (fun rt u => applyUserDataEntry rt u.className u.testName u.properties)
          moblyRoot1
      .ok (createMainWrapper requested errored failed moblyRootFinal)

/-- The boolean list built by the comprehension in
`_aggregate_testcase_iteration_results` is all-true exactly when every
non-skipped iteration failed. -/
theorem mapBeqFailed_all (rem : List Status) :
    ((rem.map (fun r => r == Status.failed)).all (fun b => b) = true) ↔
      ∀ r ∈ rem, r = Status.failed := by
  simp [List.all_map, List.all_eq_true, Function.comp]

/-- The boolean list built by the comprehension in
`_aggregate_testcase_iteration_results` has a true element exactly when some
non-skipped iteration failed. -/
theorem mapBeqFailed_any (rem : List Status) :
    ((rem.map (fun r => r == Status.failed)).any (fun b => b) = true) ↔
      ∃ r ∈ rem, r = Status.failed := by
  simp [List.any_map, List.any_eq_true, Function.comp]

/-- C1 (Iteration aggregation): `_aggregate_testcase_iteration_results`
first drops Skipped iterations; if none remain the group is Skipped, else if
all remaining failed it is Failed, if some but not all failed it is Flaky,
otherwise Passed; with the spec's four concrete instances
`[Pass, Fail] → Flaky`, `[Fail, Fail] → Failed`, `[Skip, Skip] → Skipped`
and `[Pass, Skip] → Passed`. -/
theorem c1_iteration_aggregation (l : List Status) :
    (l.filter (fun r => r != Status.skipped) = [] →
      aggregateTestcaseIterationResults l = Status.skipped) ∧
    (l.filter (fun r => r != Status.skipped) ≠ [] →
      (∀ r ∈ l.filter (fun r => r != Status.skipped), r = Status.failed) →
      aggregateTestcaseIterationResults l = Status.failed) ∧
    ((∃ r ∈ l.filter (fun r => r != Status.skipped), r = Status.failed) →
      (∃ r ∈ l.filter (fun r => r != Status.skipped), r ≠ Status.failed) →
      aggregateTestcaseIterationResults l = Status.flaky) ∧
    (l.filter (fun r => r != Status.skipped) ≠ [] →
      (∀ r ∈ l.filter (fun r => r != Status.skipped), r ≠ Status.failed) →
      aggregateTestcaseIterationResults l = Status.passed) ∧
    aggregateTestcaseIterationResults [Status.passed, Status.failed] = Status.flaky ∧
    aggregateTestcaseIterationResults [Status.failed, Status.failed] = Status.failed ∧
    aggregateTestcaseIterationResults [Status.skipped, Status.skipped] = Status.skipped ∧
    aggregateTestcaseIterationResults [Status.passed, Status.skipped] = Status.passed := by
  refine ⟨?_, ?_, ?_, ?_, by decide, by decide, by decide, by decide⟩
  · intro h
    simp [aggregateTestcaseIterationResults, h]
  · intro hne hall
    have hisE : ((l.filter (fun r => r != Status.skipped)).map
        (fun r => r == Status.failed)).isEmpty = false := by
      simpa [List.isEmpty_iff] using hne
    have hAll := (mapBeqFailed_all (l.filter (fun r => r != Status.skipped))).mpr hall
    simp [aggregateTestcaseIterationResults, hisE, hAll]
  · intro hsome hnotall
    obtain ⟨r₀, hr₀m, hr₀⟩ := hsome
    obtain ⟨r₁, hr₁m, hr₁⟩ := hnotall
    have hne : l.filter (fun r => r != Status.skipped) ≠ [] := by
      intro h
      rw [h] at hr₀m
      exact absurd hr₀m (List.not_mem_nil r₀)
    have hisE : ((l.filter (fun r => r != Status.skipped)).map
        (fun r => r == Status.failed)).isEmpty = false := by
      simpa [List.isEmpty_iff] using hne
    have hAll : ((l.filter (fun r => r != Status.skipped)).map
        (fun r => r == Status.failed)).all (fun b => b) = false := by
      rcases Bool.eq_false_or_eq_true (((l.filter (fun r => r != Status.skipped)).map
        (fun r => r == Status.failed)).all (fun b => b)) with h | h
      · exact absurd ((mapBeqFailed_all _).mp h r₁ hr₁m) hr₁
      · exact h
    have hAny := (mapBeqFailed_any (l.filter (fun r => r != Status.skipped))).mpr
      ⟨r₀, hr₀m, hr₀⟩
    simp [aggregateTestcaseIterationResults, hisE, hAll, hAny]
  · intro hne hnone
    have hisE : ((l.filter (fun r => r != Status.skipped)).map
        (fun r => r == Status.failed)).isEmpty = false := by
      simpa [List.isEmpty_iff] using hne
    rcases hcons : l.filter (fun r => r != Status.skipped) with _ | ⟨a, as⟩
    · exact absurd hcons hne
    have hAll : ((l.filter (fun r => r != Status.skipped)).map
        (fun r => r == Status.failed)).all (fun b => b) = false := by
      rcases Bool.eq_false_or_eq_true (((l.filter (fun r => r != Status.skipped)).map
        (fun r => r == Status.failed)).all (fun b => b)) with h | h
      · have := (mapBeqFailed_all _).mp h a (by rw [hcons]; exact List.mem_cons_self a as)
        exact absurd this (hnone a (by rw [hcons]; exact List.mem_cons_self a as))
      · exact h
    have hAny : ((l.filter (fun r => r != Status.skipped)).map
        (fun r => r == Status.failed)).any (fun b => b) = false := by
      rcases Bool.eq_false_or_eq_true (((l.filter (fun r => r != Status.skipped)).map
        (fun r => r == Status.failed)).any (fun b => b)) with h | h
      · obtain ⟨r, hrm, hr⟩ := (mapBeqFailed_any _).mp h
        exact absurd hr (hnone r hrm)
      · exact h
    simp [aggregateTestcaseIterationResults, hisE, hAll, hAny]

/-- Witness for C1 at the spec's `[Pass, Fail]` instance, discharging the
some-but-not-all-failed hypotheses. -/
theorem c1_iteration_aggregation_witness :
    aggregateTestcaseIterationResults [Status.passed, Status.failed] = Status.flaky :=
  (c1_iteration_aggregation [Status.passed, Status.failed]).2.2.1
    (by decide) (by decide)

/-- Behaviour of the subtest scanning loop: the first Failed element wins;
otherwise a pending or encountered Flaky yields Flaky; otherwise Passed. -/
theorem subtestScanLoop_spec (l : List Status) (af : Bool) :
    (Status.failed ∈ l → subtestScanLoop l af = Status.failed) ∧
    (Status.failed ∉ l → (af = true ∨ Status.flaky ∈ l) →
      subtestScanLoop l af = Status.flaky) ∧
    (Status.failed ∉ l → af = false → Status.flaky ∉ l →
      subtestScanLoop l af = Status.passed) := by
  induction l generalizing af with
  | nil =>
    refine ⟨by simp, ?_, ?_⟩
    · intro _ haf
      rcases haf with haf | haf
      · simp [subtestScanLoop, haf]
      · exact absurd haf (List.not_mem_nil _)
    · intro _ haf _
      simp [subtestScanLoop, haf]
  | cons a as ih =>
    refine ⟨?_, ?_, ?_⟩
    · intro hmem
      by_cases ha : a = Status.failed
      · simp [subtestScanLoop, ha]
      · have has : Status.failed ∈ as := by
          rcases List.mem_cons.mp hmem with h | h
          · exact absurd h.symm ha
          · exact h
        simp only [subtestScanLoop, if_neg ha]
        exact (ih _).1 has
    · intro hmem haf
      have ha : a ≠ Status.failed := fun h => hmem (h ▸ List.mem_cons_self a as)
      have has : Status.failed ∉ as := fun h => hmem (List.mem_cons_of_mem a h)
      simp only [subtestScanLoop, if_neg ha]
      refine (ih _).2.1 has ?_
      rcases haf with haf | haf
      · left; simp [haf]
      · rcases List.mem_cons.mp haf with h | h
        · left; simp [← h]
        · right; exact h
    · intro hmem haf hfl
      have ha : a ≠ Status.failed := fun h => hmem (h ▸ List.mem_cons_self a as)
      have has : Status.failed ∉ as := fun h => hmem (List.mem_cons_of_mem a h)
      have hfla : a ≠ Status.flaky := fun h => hfl (h ▸ List.mem_cons_self a as)
      have hflas : Status.flaky ∉ as := fun h => hfl (List.mem_cons_of_mem a h)
      simp only [subtestScanLoop, if_neg ha]
      refine (ih _).2.2 has ?_ hflas
      simp [haf, hfla]

/-- The scanning loop only ever produces Failed, Flaky or Passed. -/
theorem subtestScanLoop_range (l : List Status) (af : Bool) :
    subtestScanLoop l af = Status.failed ∨ subtestScanLoop l af = Status.flaky ∨
      subtestScanLoop l af = Status.passed := by
  induction l generalizing af with
  | nil =>
    rcases af with _ | _
    · simp [subtestScanLoop]
    · simp [subtestScanLoop]
  | cons a as ih =>
    by_cases ha : a = Status.failed
    · simp [subtestScanLoop, ha]
    · simp only [subtestScanLoop, if_neg ha]
      exact ih _

/-- C2 (Subtree aggregation): on a non-empty list of child statuses,
`_aggregate_subtest_results` returns one of the five statuses, and: all
children Skipped gives Skipped; otherwise a Failed child gives Failed;
otherwise a Flaky child gives Flaky; otherwise Passed. -/
theorem c2_subtree_aggregation (l : List Status) (hne : l ≠ []) :
    aggregateSubtestResults l ∈
      [Status.passed, Status.failed, Status.skipped, Status.flaky,
       Status.unknown] ∧
    ((∀ r ∈ l, r = Status.skipped) → aggregateSubtestResults l = Status.skipped) ∧
    (¬(∀ r ∈ l, r = Status.skipped) → Status.failed ∈ l →
      aggregateSubtestResults l = Status.failed) ∧
    (¬(∀ r ∈ l, r = Status.skipped) → Status.failed ∉ l → Status.flaky ∈ l →
      aggregateSubtestResults l = Status.flaky) ∧
    (¬(∀ r ∈ l, r = Status.skipped) → Status.failed ∉ l → Status.flaky ∉ l →
      aggregateSubtestResults l = Status.passed) := by
  have hallskip : (l.all (fun r => r == Status.skipped) = true) ↔
      ∀ r ∈ l, r = Status.skipped := by
    simp [List.all_eq_true]
  refine ⟨?_, ?_, ?_, ?_, ?_⟩
  · by_cases h : ∀ r ∈ l, r = Status.skipped
    · simp [aggregateSubtestResults, hallskip.mpr h]
    · have hA : l.all (fun r => r == Status.skipped) = false := by
        rcases Bool.eq_false_or_eq_true (l.all (fun r => r == Status.skipped)) with hb | hb
        · exact absurd (hallskip.mp hb) h
        · exact hb
      simp only [aggregateSubtestResults, hA, Bool.false_eq_true, if_false]
      rcases subtestScanLoop_range l false with h1 | h1 | h1 <;> simp [h1]
  · intro h
    simp [aggregateSubtestResults, hallskip.mpr h]
  · intro h hf
    have hA : l.all (fun r => r == Status.skipped) = false := by
      rcases Bool.eq_false_or_eq_true (l.all (fun r => r == Status.skipped)) with hb | hb
      · exact absurd (hallskip.mp hb) h
      · exact hb
    simp only [aggregateSubtestResults, hA, Bool.false_eq_true, if_false]
    exact (subtestScanLoop_spec l false).1 hf
  · intro h hf hfl
    have hA : l.all (fun r => r == Status.skipped) = false := by
      rcases Bool.eq_false_or_eq_true (l.all (fun r => r == Status.skipped)) with hb | hb
      · exact absurd (hallskip.mp hb) h
      · exact hb
    simp only [aggregateSubtestResults, hA, Bool.false_eq_true, if_false]
    exact (subtestScanLoop_spec l false).2.1 hf (Or.inr hfl)
  · intro h hf hfl
    have hA : l.all (fun r => r == Status.skipped) = false := by
      rcases Bool.eq_false_or_eq_true (l.all (fun r => r == Status.skipped)) with hb | hb
      · exact absurd (hallskip.mp hb) h
      · exact hb
    simp only [aggregateSubtestResults, hA, Bool.false_eq_true, if_false]
    exact (subtestScanLoop_spec l false).2.2 hf rfl hfl

/-- Witness for C2 on the non-empty list `[Flaky, Passed]`, discharging the
non-emptiness and the Flaky-branch hypotheses. -/
theorem c2_subtree_aggregation_witness :
    aggregateSubtestResults [Status.flaky, Status.passed] = Status.flaky :=
  (c2_subtree_aggregation [Status.flaky, Status.passed] (by decide)).2.2.2.1
    (by decide) (by decide) (by decide)

/-- Lookup after a dict assignment: the assigned key reads back the new
value, every other key is unchanged. -/
theorem lookupA_insertA {α : Type} (m : PyDict α) (key q : PyStr) (v : α) :
    lookupA (insertA m key v) q = if key = q then some v else lookupA m q := by
  induction m with
  | nil =>
    by_cases h : key = q
    · simp [insertA, lookupA, h]
    · simp [insertA, lookupA, h]
  | cons p rest ih =>
    obtain ⟨k, v'⟩ := p
    by_cases hk : k = key
    · subst hk
      by_cases hq : k = q
      · simp [insertA, lookupA, hq]
      · simp [insertA, lookupA, hq]
    · by_cases hq : k = q
      · subst hq
        have hkq : ¬key = k := fun h => hk h.symm
        simp [insertA, lookupA, hk, hkq]
      · simp [insertA, lookupA, hk, hq, ih]

/-- A key with a bound value is among the dict's keys. -/
theorem lookupA_some_mem_keys {α : Type} (m : PyDict α) (k : PyStr) (v : α)
    (h : lookupA m k = some v) : k ∈ m.map (fun p => p.1) := by
  induction m with
  | nil => simp [lookupA] at h
  | cons p rest ih =>
    obtain ⟨k', v'⟩ := p
    by_cases hk : k' = k
    · subst hk; simp
    · rw [lookupA, if_neg hk] at h
      simp [ih h]

/-- Reachability along the child-to-parent map: the second signature lies on
the parent chain starting at the first (which includes the first itself). -/
inductive ReachCpm (cpm : PyDict PyStr) : PyStr → PyStr → Prop where
  | refl (x : PyStr) : ReachCpm cpm x x
  | step {x y z : PyStr} (hxy : lookupA cpm x = some y) (hyz : ReachCpm cpm y z) :
      ReachCpm cpm x z

/-- A successful `_set_rerun_node` call preserves every memoized entry
unchanged (the function never overwrites an entry that was present when it
was called). -/
theorem setRerunNode_mono : ∀ (fuel : Nat) (sig : PyStr) (cpm : PyDict PyStr)
    (ptm : PyDict TestParentType) (stnm : PyDict PyStr)
    (rnm rnm' : PyDict ReranNode),
    setRerunNode fuel sig cpm ptm stnm rnm = .ok rnm' →
    ∀ k n, lookupA rnm k = some n → lookupA rnm' k = some n := by
  intro fuel
  induction fuel with
  | zero =>
    intro sig cpm ptm stnm rnm rnm' h
    exact absurd h (by simp [setRerunNode])
  | succ fuel ih =>
    intro sig cpm ptm stnm rnm rnm' h k n hk
    rw [setRerunNode] at h
    by_cases hmem : (lookupA rnm sig).isSome
    · rw [if_pos hmem] at h
      cases h
      exact hk
    · rw [if_neg hmem] at h
      have hsig : lookupA rnm sig = none := by
        cases hh : lookupA rnm sig with
        | none => rfl
        | some x => rw [hh] at hmem; simp at hmem
      have hne : sig ≠ k := fun he => by
        rw [he] at hsig; rw [hsig] at hk; cases hk
      rcases hcpm : lookupA cpm sig with _ | psig
      · rw [hcpm] at h
        rcases hptm : lookupA ptm sig with _ | ptype
        · rw [hptm] at h; cases h
        · rw [hptm] at h
          rcases hstnm : lookupA stnm sig with _ | name
          · rw [hstnm] at h; cases h
          · rw [hstnm] at h
            injection h with h
            subst h
            rw [lookupA_insertA, if_neg hne]
            exact hk
      · rw [hcpm] at h
        dsimp only at h
        rcases hrec : setRerunNode fuel psig cpm ptm stnm rnm with e | rnm''
        · rw [hrec] at h; cases h
        · rw [hrec] at h
          dsimp only at h
          rcases hp : lookupA rnm'' psig with _ | pnode
          · rw [hp] at h; cases h
          · rw [hp] at h
            dsimp only at h
            rcases hstnm : lookupA stnm sig with _ | name
            · rw [hstnm] at h; cases h
            · rw [hstnm] at h
              dsimp only at h
              injection h with h
              subst h
              rw [lookupA_insertA, if_neg hne]
              exact ih psig cpm ptm stnm rnm rnm'' hrec k n hk

/-- Every key a successful `_set_rerun_node` call adds to the memo map lies
on the parent chain of the signature being resolved. -/
theorem setRerunNode_added : ∀ (fuel : Nat) (sig : PyStr) (cpm : PyDict PyStr)
    (ptm : PyDict TestParentType) (stnm : PyDict PyStr)
    (rnm rnm' : PyDict ReranNode),
    setRerunNode fuel sig cpm ptm stnm rnm = .ok rnm' →
    ∀ k n, lookupA rnm' k = some n →
      lookupA rnm k = some n ∨ ReachCpm cpm sig k := by
  intro fuel
  induction fuel with
  | zero =>
    intro sig cpm ptm stnm rnm rnm' h
    exact absurd h (by simp [setRerunNode])
  | succ fuel ih =>
    intro sig cpm ptm stnm rnm rnm' h k n hk
    rw [setRerunNode] at h
    by_cases hmem : (lookupA rnm sig).isSome
    · rw [if_pos hmem] at h
      cases h
      exact Or.inl hk
    · rw [if_neg hmem] at h
      rcases hcpm : lookupA cpm sig with _ | psig
      · rw [hcpm] at h
        rcases hptm : lookupA ptm sig with _ | ptype
        · rw [hptm] at h; cases h
        · rw [hptm] at h
          rcases hstnm : lookupA stnm sig with _ | name
          · rw [hstnm] at h; cases h
          · rw [hstnm] at h
            injection h with h
            subst h
            rw [lookupA_insertA] at hk
            by_cases he : sig = k
            · exact Or.inr (he ▸ ReachCpm.refl sig)
            · rw [if_neg he] at hk
              exact Or.inl hk
      · rw [hcpm] at h
        dsimp only at h
        rcases hrec : setRerunNode fuel psig cpm ptm stnm rnm with e | rnm''
        · rw [hrec] at h; cases h
        · rw [hrec] at h
          dsimp only at h
          rcases hp : lookupA rnm'' psig with _ | pnode
          · rw [hp] at h; cases h
          · rw [hp] at h
            dsimp only at h
            rcases hstnm : lookupA stnm sig with _ | name
            · rw [hstnm] at h; cases h
            · rw [hstnm] at h
              dsimp only at h
              injection h with h
              subst h
              rw [lookupA_insertA] at hk
              by_cases he : sig = k
              · exact Or.inr (he ▸ ReachCpm.refl sig)
              · rw [if_neg he] at hk
                rcases ih psig cpm ptm stnm rnm rnm'' hrec k n hk with hl | hr
                · exact Or.inl hl
                · exact Or.inr (ReachCpm.step hcpm hr)

/-- Under an acyclicity measure for the child-to-parent map, a reachable
signature has a measure no larger than the starting one. -/
theorem reachCpm_measure_le (cpm : PyDict PyStr) (d : PyStr → Nat)
    (hd : ∀ s p, lookupA cpm s = some p → d p < d s) :
    ∀ x k, ReachCpm cpm x k → d k ≤ d x := by
  intro x k h
  induction h with
  | refl => exact Nat.le_refl _
  | step hxy _ ih => exact Nat.le_trans ih (Nat.le_of_lt (hd _ _ hxy))

/-- The per-entry shape of a resolved rerun map: a signature with no parent
is a root with iteration index 0, and a signature with a parent carries its
parent's index plus one and inherits the parent's original test name and
rerun kind. -/
def ChainInvariant (cpm : PyDict PyStr) (m : PyDict ReranNode) : Prop :=
  ∀ sig node, lookupA m sig = some node →
    (lookupA cpm sig = none → node.index = 0) ∧
    (∀ psig, lookupA cpm sig = some psig →
      ∃ pnode, lookupA m psig = some pnode ∧ node.index = pnode.index + 1 ∧
        node.originalTestName = pnode.originalTestName ∧
        node.nodeType = pnode.nodeType)

/-- A successful `_set_rerun_node` call preserves the chain invariant,
provided the child-to-parent map is acyclic. -/
theorem setRerunNode_chainInv (cpm : PyDict PyStr) (d : PyStr → Nat)
    (hd : ∀ s p, lookupA cpm s = some p → d p < d s) :
    ∀ (fuel : Nat) (sig : PyStr) (ptm : PyDict TestParentType)
      (stnm : PyDict PyStr) (rnm rnm' : PyDict ReranNode),
    ChainInvariant cpm rnm →
    setRerunNode fuel sig cpm ptm stnm rnm = .ok rnm' →
    ChainInvariant cpm rnm' := by
  intro fuel
  induction fuel with
  | zero =>
    intro sig ptm stnm rnm rnm' _ h
    exact absurd h (by simp [setRerunNode])
  | succ fuel ih =>
    intro sig ptm stnm rnm rnm' hinv h
    rw [setRerunNode] at h
    by_cases hmem : (lookupA rnm sig).isSome
    · rw [if_pos hmem] at h
      cases h
      exact hinv
    · rw [if_neg hmem] at h
      have hsig : lookupA rnm sig = none := by
        cases hh : lookupA rnm sig with
        | none => rfl
        | some x => rw [hh] at hmem; simp at hmem
      rcases hcpm : lookupA cpm sig with _ | psig
      · rw [hcpm] at h
        rcases hptm : lookupA ptm sig with _ | ptype
        · rw [hptm] at h; cases h
        · rw [hptm] at h
          rcases hstnm : lookupA stnm sig with _ | name
          · rw [hstnm] at h; cases h
          · rw [hstnm] at h
            injection h with h
            subst h
            intro k nk hk
            rw [lookupA_insertA] at hk
            by_cases he : sig = k
            · rw [if_pos he] at hk
              injection hk with hk
              subst hk
              subst he
              constructor
              · intro _; rfl
              · intro psig hps
                rw [hcpm] at hps
                cases hps
            · rw [if_neg he] at hk
              obtain ⟨h1, h2⟩ := hinv k nk hk
              refine ⟨h1, ?_⟩
              intro psig hps
              obtain ⟨pnode, hpn, hrest⟩ := h2 psig hps
              refine ⟨pnode, ?_, hrest⟩
              rw [lookupA_insertA]
              have : sig ≠ psig := fun heq => by
                rw [← heq] at hpn
                rw [hsig] at hpn
                cases hpn
              rw [if_neg this]
              exact hpn
      · rw [hcpm] at h
        dsimp only at h
        rcases hrec : setRerunNode fuel psig cpm ptm stnm rnm with e | rnm''
        · rw [hrec] at h; cases h
        · rw [hrec] at h
          dsimp only at h
          rcases hp : lookupA rnm'' psig with _ | pnode
          · rw [hp] at h; cases h
          · rw [hp] at h
            dsimp only at h
            rcases hstnm : lookupA stnm sig with _ | name
            · rw [hstnm] at h; cases h
            · rw [hstnm] at h
              dsimp only at h
              injection h with h
              subst h
              have hinv'' : ChainInvariant cpm rnm'' :=
                ih psig ptm stnm rnm rnm'' hinv hrec
              have hsig'' : lookupA rnm'' sig = none := by
                cases hh : lookupA rnm'' sig with
                | none => rfl
                | some nx =>
                  rcases setRerunNode_added fuel psig cpm ptm stnm rnm rnm''
                      hrec sig nx hh with hl | hr
                  · rw [hsig] at hl; cases hl
                  · have h1 := reachCpm_measure_le cpm d hd psig sig hr
                    have h2 := hd sig psig hcpm
                    omega
              have hnps : sig ≠ psig := fun heq => by
                have := hd sig psig hcpm
                rw [heq] at this
                omega
              intro k nk hk
              rw [lookupA_insertA] at hk
              by_cases he : sig = k
              · rw [if_pos he] at hk
                injection hk with hk
                subst hk
                subst he
                constructor
                · intro hc
                  rw [hcpm] at hc
                  cases hc
                · intro psig' hps
                  rw [hcpm] at hps
                  injection hps with hps
                  subst hps
                  refine ⟨pnode, ?_, rfl, rfl, rfl⟩
                  rw [lookupA_insertA, if_neg hnps]
                  exact hp
              · rw [if_neg he] at hk
                obtain ⟨h1, h2⟩ := hinv'' k nk hk
                refine ⟨h1, ?_⟩
                intro psig' hps
                obtain ⟨pnode', hpn, hrest⟩ := h2 psig' hps
                refine ⟨pnode', ?_, hrest⟩
                rw [lookupA_insertA]
                have : sig ≠ psig' := fun heq => by
                  rw [← heq] at hpn
                  rw [hsig''] at hpn
                  cases hpn
                rw [if_neg this]
                exact hpn

/-- The signature-resolution loop of `_get_reran_nodes` preserves the chain
invariant over an acyclic child-to-parent map. -/
theorem resolveAll_chainInv (cpm : PyDict PyStr) (d : PyStr → Nat)
    (hd : ∀ s p, lookupA cpm s = some p → d p < d s)
    (fuel : Nat) (ptm : PyDict TestParentType) (stnm : PyDict PyStr) :
    ∀ (keys : List PyStr) (rnm rnm' : PyDict ReranNode),
    ChainInvariant cpm rnm →
    resolveAll fuel cpm ptm stnm keys rnm = .ok rnm' →
    ChainInvariant cpm rnm' := by
  intro keys
  induction keys with
  | nil =>
    intro rnm rnm' hinv h
    rw [resolveAll] at h
    injection h with h
    subst h
    exact hinv
  | cons k ks ih =>
    intro rnm rnm' hinv h
    rw [resolveAll] at h
    rcases hstep : setRerunNode fuel k cpm ptm stnm rnm with e | rnm₁
    · rw [hstep] at h; cases h
    · rw [hstep] at h
      dsimp only at h
      exact ih rnm₁ rnm'
        (setRerunNode_chainInv cpm d hd fuel k ptm stnm rnm rnm₁ hinv hstep) h

/-- In a map satisfying the chain invariant, every signature shares the
original test name and rerun kind of any root it reaches along the
child-to-parent map. -/
theorem chainInv_share (cpm : PyDict PyStr) (m : PyDict ReranNode)
    (hinv : ChainInvariant cpm m) :
    ∀ sig rt, ReachCpm cpm sig rt →
      ∀ node rtnode, lookupA m sig = some node → lookupA m rt = some rtnode →
      node.originalTestName = rtnode.originalTestName ∧
      node.nodeType = rtnode.nodeType := by
  intro sig rt hreach
  induction hreach with
  | refl x =>
    intro node rtnode h1 h2
    rw [h1] at h2
    injection h2 with h2
    subst h2
    exact ⟨rfl, rfl⟩
  | step hxy _ ih =>
    intro node rtnode h1 h2
    obtain ⟨_, hchild⟩ := hinv _ node h1
    obtain ⟨pnode, hpn, _, horig, htype⟩ := hchild _ hxy
    obtain ⟨ho, ht⟩ := ih pnode rtnode hpn h2
    exact ⟨horig.trans ho, htype.trans ht⟩

/-- C5 (Chain propagation): when rerun resolution succeeds on records whose
child-to-parent map is acyclic (witnessed by a measure `d` that strictly
decreases from child to parent), the resolved map satisfies: a parentless
signature has iteration index 0; a signature with a parent has its parent's
index plus one and inherits the parent's original test name and kind; and
consequently every signature shares the original test name and kind of any
root it reaches. -/
theorem c5_chain_propagation (fuel : Nat) (entries : List RecordEntry)
    (m : PyDict ReranNode) (d : PyStr → Nat)
    (hd : ∀ s p, lookupA (cpmOf entries) s = some p → d p < d s)
    (hok : getReranNodes fuel entries = .ok m) :
    ChainInvariant (cpmOf entries) m ∧
    (∀ sig rt node rtnode, lookupA m sig = some node →
      ReachCpm (cpmOf entries) sig rt →
      lookupA (cpmOf entries) rt = none → lookupA m rt = some rtnode →
      node.originalTestName = rtnode.originalTestName ∧
      node.nodeType = rtnode.nodeType ∧ rtnode.index = 0) := by
  have hbase : ChainInvariant (cpmOf entries) ([] : PyDict ReranNode) := by
    intro sig node h
    cases h
  have hinv : ChainInvariant (cpmOf entries) m := by
    rw [getReranNodes] at hok
    exact resolveAll_chainInv (cpmOf entries) d hd fuel (ptmOf entries)
      (stnmOf entries) ((cpmOf entries).map (fun p => p.1)) [] m hbase hok
  refine ⟨hinv, ?_⟩
  intro sig rt node rtnode hn hreach hrt hrtn
  obtain ⟨ho, ht⟩ := chainInv_share (cpmOf entries) m hinv sig rt hreach
    node rtnode hn hrtn
  exact ⟨ho, ht, (hinv rt rtnode hrtn).1 hrt⟩

/-- A record entry with the fields relevant to rerun resolution; the timing
and detail fields are fixed innocuous values. -/
def mkTestRecord (cn tn : String) (sig : Option String)
    (par : Option (String × String)) (res : Option MoblyResult) : RecordEntry :=
  ⟨pystr cn, pystr tn, sig.map pystr,
   par.map (fun p => (pystr p.1, pystr p.2)), res, 1000, 1500,
   some (pystr "boom"), none, none, none, none⟩

/-- A three-deep retry chain `a → b → c` (root `a`, its retry `b`, a retry
of the retry `c`). -/
def c5ChainEntries : List RecordEntry :=
  [mkTestRecord "FooTest" "test_x" (some "a") none (some .pass),
   mkTestRecord "FooTest" "test_x_r1" (some "b") (some ("a", "retry")) (some .pass),
   mkTestRecord "FooTest" "test_x_r2" (some "c") (some ("b", "retry")) (some .pass)]

/-- The rerun map the converter computes for the three-deep chain. -/
def c5ChainMap : PyDict ReranNode :=
  [(pystr "a", ⟨pystr "test_x", pystr "test_x", 0, TestParentType.retry⟩),
   (pystr "b", ⟨pystr "test_x_r1", pystr "test_x", 1, TestParentType.retry⟩),
   (pystr "c", ⟨pystr "test_x_r2", pystr "test_x", 2, TestParentType.retry⟩)]

/-- Witness for C5: the three-deep retry chain resolves to exactly
`c5ChainMap`, which satisfies the chain invariant (via an explicit
acyclicity measure) and concretely assigns iteration indices 0, 1, 2 with
one shared original name and kind. -/
theorem c5_chain_propagation_witness :
    getReranNodes 10 c5ChainEntries = .ok c5ChainMap ∧
    ChainInvariant (cpmOf c5ChainEntries) c5ChainMap ∧
    (lookupA c5ChainMap (pystr "a")).map (fun n => n.index) = some 0 ∧
    (lookupA c5ChainMap (pystr "b")).map (fun n => n.index) = some 1 ∧
    (lookupA c5ChainMap (pystr "c")).map (fun n => n.index) = some 2 ∧
    (lookupA c5ChainMap (pystr "a")).map (fun n => n.originalTestName) =
      some (pystr "test_x") ∧
    (lookupA c5ChainMap (pystr "b")).map (fun n => n.originalTestName) =
      some (pystr "test_x") ∧
    (lookupA c5ChainMap (pystr "c")).map (fun n => n.originalTestName) =
      some (pystr "test_x") ∧
    (lookupA c5ChainMap (pystr "c")).map (fun n => n.nodeType) =
      some TestParentType.retry := by
  have hcpm : cpmOf c5ChainEntries =
      [(pystr "b", pystr "a"), (pystr "c", pystr "b")] := by rfl
  have hd : ∀ s p, lookupA (cpmOf c5ChainEntries) s = some p →
      (fun s => if s = pystr "b" then 1 else if s = pystr "c" then 2 else 0) p <
      (fun s => if s = pystr "b" then 1 else if s = pystr "c" then 2 else 0) s := by
    intro s p hsp
    rw [hcpm] at hsp
    simp only [lookupA] at hsp
    by_cases h1 : pystr "b" = s
    · rw [if_pos h1] at hsp
      injection hsp with hsp
      subst h1
      subst hsp
      decide
    · rw [if_neg h1] at hsp
      by_cases h2 : pystr "c" = s
      · rw [if_pos h2] at hsp
        injection hsp with hsp
        subst h2
        subst hsp
        decide
      · rw [if_neg h2] at hsp
        cases hsp
  refine ⟨rfl,
    (c5_chain_propagation 10 c5ChainEntries c5ChainMap _ hd rfl).1,
    ?_, ?_, ?_, ?_, ?_, ?_, ?_⟩ <;> rfl

/-- A signature that never appears as a key of the signature-to-name map and
has no parent of its own can never be resolved: `_set_rerun_node` on it
raises `KeyError` (or exhausts the recursion depth) instead of returning. -/
theorem setRerunNode_deadFails (cpm : PyDict PyStr) (ptm : PyDict TestParentType)
    (stnm : PyDict PyStr) (p : PyStr)
    (hp1 : lookupA cpm p = none) (hp2 : lookupA stnm p = none) :
    ∀ (fuel : Nat) (rnm : PyDict ReranNode), lookupA rnm p = none →
      ∀ r, setRerunNode fuel p cpm ptm stnm rnm ≠ .ok r := by
  intro fuel rnm hrnm r h
  cases fuel with
  | zero => rw [setRerunNode] at h; cases h
  | succ fuel =>
    rw [setRerunNode] at h
    rw [hrnm] at h
    simp only [Option.isSome_none, Bool.false_eq_true, if_false] at h
    rw [hp1] at h
    dsimp only at h
    rcases hptm : lookupA ptm p with _ | ptype
    · rw [hptm] at h; cases h
    · rw [hptm] at h
      dsimp only at h
      rw [hp2] at h
      cases h

/-- `_set_rerun_node` never adds a signature that cannot be resolved as a
root (absent from the name map, no parent of its own) to the memo map. -/
theorem setRerunNode_noDead (cpm : PyDict PyStr) (ptm : PyDict TestParentType)
    (stnm : PyDict PyStr) (p : PyStr)
    (hp1 : lookupA cpm p = none) (hp2 : lookupA stnm p = none) :
    ∀ (fuel : Nat) (x : PyStr) (rnm rnm' : PyDict ReranNode),
      setRerunNode fuel x cpm ptm stnm rnm = .ok rnm' →
      lookupA rnm p = none → lookupA rnm' p = none := by
  intro fuel
  induction fuel with
  | zero =>
    intro x rnm rnm' h
    exact absurd h (by simp [setRerunNode])
  | succ fuel ih =>
    intro x rnm rnm' h hrnm
    rw [setRerunNode] at h
    by_cases hmem : (lookupA rnm x).isSome
    · rw [if_pos hmem] at h
      cases h
      exact hrnm
    · rw [if_neg hmem] at h
      rcases hcpm : lookupA cpm x with _ | psig
      · rw [hcpm] at h
        rcases hptm : lookupA ptm x with _ | ptype
        · rw [hptm] at h; cases h
        · rw [hptm] at h
          rcases hstnm : lookupA stnm x with _ | name
          · rw [hstnm] at h; cases h
          · rw [hstnm] at h
            injection h with h
            subst h
            have hne : x ≠ p := fun he => by
              rw [he] at hstnm
              rw [hp2] at hstnm
              cases hstnm
            rw [lookupA_insertA, if_neg hne]
            exact hrnm
      · rw [hcpm] at h
        dsimp only at h
        rcases hrec : setRerunNode fuel psig cpm ptm stnm rnm with e | rnm''
        · rw [hrec] at h; cases h
        · rw [hrec] at h
          dsimp only at h
          rcases hp : lookupA rnm'' psig with _ | pnode
          · rw [hp] at h; cases h
          · rw [hp] at h
            dsimp only at h
            rcases hstnm : lookupA stnm x with _ | name
            · rw [hstnm] at h; cases h
            · rw [hstnm] at h
              dsimp only at h
              injection h with h
              subst h
              have hne : x ≠ p := fun he => by
                rw [he] at hcpm
                rw [hp1] at hcpm
                cases hcpm
              rw [lookupA_insertA, if_neg hne]
              exact ih psig rnm rnm'' hrec hrnm

/-- `_set_rerun_node` never adds a signature whose parent is a dead
signature (one absent from both the child-to-parent and name maps) to the
memo map: resolving it would first have to resolve the dead parent, which
raises instead. -/
theorem setRerunNode_noDeadChild (cpm : PyDict PyStr)
    (ptm : PyDict TestParentType) (stnm : PyDict PyStr) (p s : PyStr)
    (hp1 : lookupA cpm p = none) (hp2 : lookupA stnm p = none)
    (hs : lookupA cpm s = some p) :
    ∀ (fuel : Nat) (x : PyStr) (rnm rnm' : PyDict ReranNode),
      setRerunNode fuel x cpm ptm stnm rnm = .ok rnm' →
      lookupA rnm p = none → lookupA rnm s = none → lookupA rnm' s = none := by
  intro fuel
  induction fuel with
  | zero =>
    intro x rnm rnm' h
    exact absurd h (by simp [setRerunNode])
  | succ fuel ih =>
    intro x rnm rnm' h hrnmp hrnms
    rw [setRerunNode] at h
    by_cases hmem : (lookupA rnm x).isSome
    · rw [if_pos hmem] at h
      cases h
      exact hrnms
    · rw [if_neg hmem] at h
      rcases hcpm : lookupA cpm x with _ | psig
      · rw [hcpm] at h
        rcases hptm : lookupA ptm x with _ | ptype
        · rw [hptm] at h; cases h
        · rw [hptm] at h
          rcases hstnm : lookupA stnm x with _ | name
          · rw [hstnm] at h; cases h
          · rw [hstnm] at h
            injection h with h
            subst h
            have hne : x ≠ s := fun he => by
              rw [he] at hcpm
              rw [hs] at hcpm
              cases hcpm
            rw [lookupA_insertA, if_neg hne]
            exact hrnms
      · rw [hcpm] at h
        dsimp only at h
        rcases hrec : setRerunNode fuel psig cpm ptm stnm rnm with e | rnm''
        · rw [hrec] at h; cases h
        · rw [hrec] at h
          dsimp only at h
          rcases hp : lookupA rnm'' psig with _ | pnode
          · rw [hp] at h; cases h
          · rw [hp] at h
            dsimp only at h
            rcases hstnm : lookupA stnm x with _ | name
            · rw [hstnm] at h; cases h
            · rw [hstnm] at h
              dsimp only at h
              injection h with h
              subst h
              have hxs : x ≠ s := by
                intro he
                subst he
                rw [hs] at hcpm
                injection hcpm with hcpm
                rw [← hcpm] at hrec hp
                have := setRerunNode_noDead cpm ptm stnm p hp1 hp2 fuel p
                  rnm rnm'' hrec hrnmp
                rw [this] at hp
                cases hp
              rw [lookupA_insertA, if_neg hxs]
              exact ih psig rnm rnm'' hrec hrnmp hrnms

/-- `_set_rerun_node` on a signature whose recorded parent is a dead
signature always raises: the recursive call on the parent fails with
`KeyError` (or the recursion bound is exhausted first). -/
theorem setRerunNode_deadChildFails (cpm : PyDict PyStr)
    (ptm : PyDict TestParentType) (stnm : PyDict PyStr) (p s : PyStr)
    (hp1 : lookupA cpm p = none) (hp2 : lookupA stnm p = none)
    (hs : lookupA cpm s = some p) :
    ∀ (fuel : Nat) (rnm : PyDict ReranNode), lookupA rnm s = none →
      lookupA rnm p = none →
      ∀ r, setRerunNode fuel s cpm ptm stnm rnm ≠ .ok r := by
  intro fuel rnm hrnms hrnmp r h
  cases fuel with
  | zero => rw [setRerunNode] at h; cases h
  | succ fuel =>
    rw [setRerunNode] at h
    rw [hrnms] at h
    simp only [Option.isSome_none, Bool.false_eq_true, if_false] at h
    rw [hs] at h
    dsimp only at h
    rcases hrec : setRerunNode fuel p cpm ptm stnm rnm with e | rnm''
    · rw [hrec] at h; cases h
    · exact setRerunNode_deadFails cpm ptm stnm p hp1 hp2 fuel rnm hrnmp rnm'' hrec

/-- The resolution loop of `_get_reran_nodes` cannot succeed when one of the
keys to resolve has a dead parent signature: it raises at that key (or
earlier). -/
theorem resolveAll_deadFails (cpm : PyDict PyStr) (ptm : PyDict TestParentType)
    (stnm : PyDict PyStr) (p s : PyStr)
    (hp1 : lookupA cpm p = none) (hp2 : lookupA stnm p = none)
    (hs : lookupA cpm s = some p) (fuel : Nat) :
    ∀ (keys : List PyStr) (rnm : PyDict ReranNode), s ∈ keys →
      lookupA rnm s = none → lookupA rnm p = none →
      ∀ r, resolveAll fuel cpm ptm stnm keys rnm ≠ .ok r := by
  intro keys
  induction keys with
  | nil =>
    intro rnm hmem
    cases hmem
  | cons k ks ih =>
    intro rnm hmem hrs hrp r h
    rw [resolveAll] at h
    rcases hstep : setRerunNode fuel k cpm ptm stnm rnm with e | rnm₁
    · rw [hstep] at h; cases h
    · rw [hstep] at h
      dsimp only at h
      by_cases hks : k = s
      · subst hks
        exact setRerunNode_deadChildFails cpm ptm stnm p k hp1 hp2 hs fuel rnm
          hrs hrp rnm₁ hstep
      · have hmem' : s ∈ ks := by
          rcases List.mem_cons.mp hmem with h' | h'
          · exact absurd h'.symm hks
          · exact h'
        exact ih rnm₁ hmem'
          (setRerunNode_noDeadChild cpm ptm stnm p s hp1 hp2 hs fuel k rnm rnm₁
            hstep hrp hrs)
          (setRerunNode_noDead cpm ptm stnm p hp1 hp2 fuel k rnm rnm₁ hstep hrp)
          r h

/-- A signature carried by no record entry ends up in neither the
child-to-parent map nor the signature-to-name map. -/
theorem buildRerunMaps_notObserved (p : PyStr) :
    ∀ (entries : List RecordEntry)
      (acc : PyDict PyStr × PyDict TestParentType × PyDict PyStr),
      (∀ e ∈ entries, e.signature ≠ some p) →
      lookupA acc.1 p = none → lookupA acc.2.2 p = none →
      lookupA (entries.foldl buildRerunMapsStep acc).1 p = none ∧
      lookupA (entries.foldl buildRerunMapsStep acc).2.2 p = none := by
  intro entries
  induction entries with
  | nil =>
    intro acc _ h1 h2
    exact ⟨h1, h2⟩
  | cons e rest ih =>
    intro acc hobs h1 h2
    rw [List.foldl_cons]
    have hsp : ∀ sig, e.signature = some sig → sig ≠ p := by
      intro sig hsig he
      exact (hobs e (List.mem_cons_self e rest)) (he ▸ hsig)
    refine ih _ (fun e' he' => hobs e' (List.mem_cons_of_mem e he')) ?_ ?_
    · rcases hsig : e.signature with _ | sig
      · simpa [buildRerunMapsStep, hsig] using h1
      · rcases hpar : e.parent with _ | ⟨psig, ptype⟩
        · simpa [buildRerunMapsStep, hsig, hpar] using h1
        · simp [buildRerunMapsStep, hsig, hpar, lookupA_insertA,
            hsp sig hsig, h1]
    · rcases hsig : e.signature with _ | sig
      · simpa [buildRerunMapsStep, hsig] using h2
      · rcases hpar : e.parent with _ | ⟨psig, ptype⟩
        · simp [buildRerunMapsStep, hsig, hpar, lookupA_insertA,
            hsp sig hsig, h2]
        · simp [buildRerunMapsStep, hsig, hpar, lookupA_insertA,
            hsp sig hsig, h2]

/-- C3 amended: when some record's parent signature was never observed as a
record, rerun resolution of that chain raises an unhandled `KeyError` (the
missing signature is looked up in `signature_test_name_map`), so
`_get_reran_nodes` never returns a map — the conversion aborts instead of
rendering the offending record as an unresolved case. -/
theorem c3_inconsistent_rerun_graph (fuel : Nat) (entries : List RecordEntry)
    (s p : PyStr) (h1 : lookupA (cpmOf entries) s = some p)
    (h2 : ∀ e ∈ entries, e.signature ≠ some p) :
    ∀ r, getReranNodes fuel entries ≠ .ok r := by
  have hobs := buildRerunMaps_notObserved p entries ([], [], []) h2 rfl rfl
  intro r h
  rw [getReranNodes] at h
  exact resolveAll_deadFails (cpmOf entries) (ptmOf entries) (stnmOf entries)
    p s hobs.1 hobs.2 h1 fuel ((cpmOf entries).map (fun q => q.1)) []
    (lookupA_some_mem_keys _ s p h1) rfl rfl r h

/-- A single record whose parent signature `p0` never occurs as a record. -/
def c3Records : List RecordEntry :=
  [mkTestRecord "FooTest" "test_a" (some "s1") (some ("p0", "retry"))
    (some .pass)]

/-- Witness for the amended C3: the concrete one-record input satisfies the
hypotheses (its child-to-parent map sends `s1` to the never-observed `p0`),
and resolution can never return a map. -/
theorem c3_inconsistent_rerun_graph_witness :
    lookupA (cpmOf c3Records) (pystr "s1") = some (pystr "p0") ∧
    c3Records.all (fun e => e.signature != some (pystr "p0")) = true ∧
    ¬(getReranNodes 10 c3Records = .ok []) :=
  ⟨rfl, by decide,
   c3_inconsistent_rerun_graph 10 c3Records (pystr "s1") (pystr "p0") rfl
     (by decide) []⟩

/-- The C3 input as a full summary stream: one summary entry plus the record
with the unobserved parent signature. -/
def c3SummaryEntries : List SummaryEntry :=
  [SummaryEntry.summary 1 0 0,
   SummaryEntry.record (mkTestRecord "FooTest" "test_a" (some "s1")
     (some ("p0", "retry")) (some .pass))]

/-- Counterexample to C3 as stated: on this input the whole conversion
aborts with the propagated `KeyError` — the offending record is not rendered
as an unresolved case and the rest of the run is lost. -/
theorem c3_counterexample :
    convertEntries 10 c3SummaryEntries =
      .error (ConvertError.resolve ResolveErr.keyError) := by rfl

/-- C7 amended: `_set_rerun_node` has no cycle detection.  On a two-cycle of
the child-to-parent map the recursion exhausts every depth bound — for all
fuel values it ends in `depthExceeded` (Python: the recursion runs to the
interpreter's recursion limit and dies with `RecursionError`), rather than
detecting the cycle and failing fast. -/
theorem c7_cycle_never_resolves (cpm : PyDict PyStr)
    (ptm : PyDict TestParentType) (stnm : PyDict PyStr) :
    ∀ (fuel : Nat) (x y : PyStr) (rnm : PyDict ReranNode),
      lookupA cpm x = some y → lookupA cpm y = some x →
      lookupA rnm x = none → lookupA rnm y = none →
      setRerunNode fuel x cpm ptm stnm rnm = .error .depthExceeded := by
  intro fuel
  induction fuel with
  | zero =>
    intro x y rnm _ _ _ _
    rw [setRerunNode]
  | succ fuel ih =>
    intro x y rnm hxy hyx hrx hry
    rw [setRerunNode, hrx]
    simp only [Option.isSome_none, Bool.false_eq_true, if_false]
    rw [hxy]
    dsimp only
    rw [ih y x rnm hyx hxy hry hrx]

/-- Two records whose parent signatures form a cycle `a → b → a`. -/
def c7CycleRecords : List RecordEntry :=
  [mkTestRecord "FooTest" "test_a" (some "a") (some ("b", "retry")) (some .pass),
   mkTestRecord "FooTest" "test_a" (some "b") (some ("a", "retry")) (some .pass)]

/-- Witness for the amended C7: the concrete cyclic input satisfies the
two-cycle hypotheses, and resolution still exhausts the bound at depth 1000
— CPython's default recursion limit. -/
theorem c7_cycle_never_resolves_witness :
    lookupA (cpmOf c7CycleRecords) (pystr "a") = some (pystr "b") ∧
    lookupA (cpmOf c7CycleRecords) (pystr "b") = some (pystr "a") ∧
    setRerunNode 1000 (pystr "a") (cpmOf c7CycleRecords) (ptmOf c7CycleRecords)
      (stnmOf c7CycleRecords) [] = .error .depthExceeded :=
  ⟨rfl, rfl,
   c7_cycle_never_resolves (cpmOf c7CycleRecords) (ptmOf c7CycleRecords)
     (stnmOf c7CycleRecords) 1000 (pystr "a") (pystr "b") [] rfl rfl rfl rfl⟩

set_option maxRecDepth 4000 in
/-- Counterexample to C7 as stated: on the cyclic input the resolver is
still recursing when a depth budget of 64 runs out — there is no visited-set
detection and no fail-fast (and the amended theorem shows the same for
every budget, 1000 — CPython's recursion limit — included). -/
theorem c7_counterexample :
    getReranNodes 64 c7CycleRecords = .error .depthExceeded := by rfl

/-- The shape of every root entry of a resolved rerun map: index 0, raw name
from the signature-to-name map, kind from the parent-type map, and an
original name obtained with `rsplit('_', 1)[0]` for Repeat kind and
unchanged otherwise. -/
def RootNodeInvariant (cpm : PyDict PyStr) (ptm : PyDict TestParentType)
    (stnm : PyDict PyStr) (m : PyDict ReranNode) : Prop :=
  ∀ sig node, lookupA m sig = some node → lookupA cpm sig = none →
    ∃ name ptype, lookupA stnm sig = some name ∧
      lookupA ptm sig = some ptype ∧ node.reranTestName = name ∧
      node.index = 0 ∧ node.nodeType = ptype ∧
      node.originalTestName =
        (if ptype = TestParentType.repeat then pyRsplitUnderscoreHead name
         else name)

/-- A successful `_set_rerun_node` call preserves the root-entry shape. -/
theorem setRerunNode_rootInv (cpm : PyDict PyStr) (ptm : PyDict TestParentType)
    (stnm : PyDict PyStr) :
    ∀ (fuel : Nat) (sig : PyStr) (rnm rnm' : PyDict ReranNode),
    RootNodeInvariant cpm ptm stnm rnm →
    setRerunNode fuel sig cpm ptm stnm rnm = .ok rnm' →
    RootNodeInvariant cpm ptm stnm rnm' := by
  intro fuel
  induction fuel with
  | zero =>
    intro sig rnm rnm' _ h
    exact absurd h (by simp [setRerunNode])
  | succ fuel ih =>
    intro sig rnm rnm' hinv h
    rw [setRerunNode] at h
    by_cases hmem : (lookupA rnm sig).isSome
    · rw [if_pos hmem] at h
      cases h
      exact hinv
    · rw [if_neg hmem] at h
      rcases hcpm : lookupA cpm sig with _ | psig
      · rw [hcpm] at h
        rcases hptm : lookupA ptm sig with _ | ptype
        · rw [hptm] at h; cases h
        · rw [hptm] at h
          rcases hstnm : lookupA stnm sig with _ | name
          · rw [hstnm] at h; cases h
          · rw [hstnm] at h
            injection h with h
            subst h
            intro k nk hk hck
            rw [lookupA_insertA] at hk
            by_cases he : sig = k
            · rw [if_pos he] at hk
              injection hk with hk
              subst hk
              subst he
              exact ⟨name, ptype, hstnm, hptm, rfl, rfl, rfl, rfl⟩
            · rw [if_neg he] at hk
              exact hinv k nk hk hck
      · rw [hcpm] at h
        dsimp only at h
        rcases hrec : setRerunNode fuel psig cpm ptm stnm rnm with e | rnm''
        · rw [hrec] at h; cases h
        · rw [hrec] at h
          dsimp only at h
          rcases hp : lookupA rnm'' psig with _ | pnode
          · rw [hp] at h; cases h
          · rw [hp] at h
            dsimp only at h
            rcases hstnm : lookupA stnm sig with _ | name
            · rw [hstnm] at h; cases h
            · rw [hstnm] at h
              dsimp only at h
              injection h with h
              subst h
              intro k nk hk hck
              rw [lookupA_insertA] at hk
              by_cases he : sig = k
              · rw [if_pos he] at hk
                rw [← he] at hck
                rw [hcpm] at hck
                cases hck
              · rw [if_neg he] at hk
                exact ih psig rnm rnm'' hinv hrec k nk hk hck

/-- The resolution loop preserves the root-entry shape. -/
theorem resolveAll_rootInv (cpm : PyDict PyStr) (ptm : PyDict TestParentType)
    (stnm : PyDict PyStr) (fuel : Nat) :
    ∀ (keys : List PyStr) (rnm rnm' : PyDict ReranNode),
    RootNodeInvariant cpm ptm stnm rnm →
    resolveAll fuel cpm ptm stnm keys rnm = .ok rnm' →
    RootNodeInvariant cpm ptm stnm rnm' := by
  intro keys
  induction keys with
  | nil =>
    intro rnm rnm' hinv h
    rw [resolveAll] at h
    injection h with h
    subst h
    exact hinv
  | cons k ks ih =>
    intro rnm rnm' hinv h
    rw [resolveAll] at h
    rcases hstep : setRerunNode fuel k cpm ptm stnm rnm with e | rnm₁
    · rw [hstep] at h; cases h
    · rw [hstep] at h
      dsimp only at h
      exact ih rnm₁ rnm'
        (setRerunNode_rootInv cpm ptm stnm fuel k rnm rnm₁ hinv hstep) h

/-- C4 amended: for every successfully resolved rerun map, a chain root
(signature with no recorded parent) resolves to iteration index 0 and an
original test name equal to its raw name truncated at its *last* underscore
when its recorded kind is Repeat — everything after the last `'_'` is
removed whether or not it is an integer, and a name with no underscore is
kept whole — and equal to its raw name unchanged when its kind is Retry. -/
theorem c4_rerun_name_stripping (fuel : Nat) (entries : List RecordEntry)
    (m : PyDict ReranNode) (hok : getReranNodes fuel entries = .ok m) :
    RootNodeInvariant (cpmOf entries) (ptmOf entries) (stnmOf entries) m := by
  have hbase : RootNodeInvariant (cpmOf entries) (ptmOf entries)
      (stnmOf entries) ([] : PyDict ReranNode) := by
    intro sig node h
    cases h
  rw [getReranNodes] at hok
  exact resolveAll_rootInv (cpmOf entries) (ptmOf entries) (stnmOf entries)
    fuel ((cpmOf entries).map (fun p => p.1)) [] m hbase hok

/-- A repeat chain whose root's raw name `test_a_b` carries no trailing
integer suffix. -/
def c4Records : List RecordEntry :=
  [mkTestRecord "FooTest" "test_a_b" (some "r1") none (some .pass),
   mkTestRecord "FooTest" "test_a_b_1" (some "r2") (some ("r1", "repeat"))
     (some .pass)]

/-- The rerun map the converter computes for `c4Records`. -/
def c4Map : PyDict ReranNode :=
  [(pystr "r1",
    ⟨pystr "test_a_b", pystr "test_a", 0, TestParentType.repeat⟩),
   (pystr "r2",
    ⟨pystr "test_a_b_1", pystr "test_a", 1, TestParentType.repeat⟩)]

/-- Witness for the amended C4: the repeat chain with root `test_a_b`
resolves to the concrete map `c4Map`, which satisfies the root-entry
shape. -/
theorem c4_rerun_name_stripping_witness :
    getReranNodes 10 c4Records = .ok c4Map ∧
    RootNodeInvariant (cpmOf c4Records) (ptmOf c4Records) (stnmOf c4Records)
      c4Map :=
  ⟨rfl, c4_rerun_name_stripping 10 c4Records c4Map rfl⟩

/-- Counterexample to C4 as stated: the repeat root named `test_a_b` has no
trailing `_<integer>` suffix, so under the claim its original name would be
`test_a_b` unchanged; the code strips at the last underscore regardless and
produces `test_a`. -/
theorem c4_counterexample :
    getReranNodes 10 c4Records = .ok c4Map ∧
    lookupA c4Map (pystr "r1") =
      some ⟨pystr "test_a_b", pystr "test_a", 0, TestParentType.repeat⟩ ∧
    lookupA (cpmOf c4Records) (pystr "r1") = none ∧
    lookupA (ptmOf c4Records) (pystr "r1") = some TestParentType.repeat ∧
    pyRsplitUnderscoreHead (pystr "test_a_b") = pystr "test_a" ∧
    specStripRepeatSuffix (pystr "test_a_b") = pystr "test_a_b" ∧
    pystr "test_a" ≠ specStripRepeatSuffix (pystr "test_a_b") :=
  ⟨rfl, rfl, rfl, rfl, rfl, rfl, by decide⟩

/-- `element.set` does not change the tag. -/
theorem XmlTree.tag_setAttr (c : XmlTree) (k : String) (v : PyStr) :
    (c.setAttr k v).tag = c.tag := by
  cases c
  rfl

/-- Reading back the attribute just set. -/
theorem lookupAttrList_setAttrList_same (a : List (String × PyStr))
    (k : String) (v : PyStr) :
    lookupAttrList (setAttrList a k v) k = some v := by
  induction a with
  | nil => simp [setAttrList, lookupAttrList]
  | cons p rest ih =>
    obtain ⟨k', v'⟩ := p
    by_cases h : k' = k
    · simp [setAttrList, lookupAttrList, h]
    · simp [setAttrList, lookupAttrList, h, ih]

/-- Setting one attribute leaves the others unchanged. -/
theorem lookupAttrList_setAttrList_other (a : List (String × PyStr))
    (k q : String) (v : PyStr) (hq : q ≠ k) :
    lookupAttrList (setAttrList a k v) q = lookupAttrList a q := by
  induction a with
  | nil => simp [setAttrList, lookupAttrList, Ne.symm hq]
  | cons p rest ih =>
    obtain ⟨k', v'⟩ := p
    by_cases h : k' = k
    · subst h
      simp [setAttrList, lookupAttrList, Ne.symm hq]
    · simp only [setAttrList, if_neg h, lookupAttrList]
      by_cases h2 : k' = q
      · simp [h2]
      · simp [h2, ih]

/-- `element.get` after `element.set` on the same element. -/
theorem XmlTree.getAttr_setAttr_same (c : XmlTree) (k : String) (v : PyStr) :
    (c.setAttr k v).getAttr k = some v := by
  cases c
  simp [XmlTree.setAttr, XmlTree.getAttr, XmlTree.attrs,
    lookupAttrList_setAttrList_same]

/-- `element.get` of a different attribute after `element.set`. -/
theorem XmlTree.getAttr_setAttr_other (c : XmlTree) (k q : String) (v : PyStr)
    (hq : q ≠ k) : (c.setAttr k v).getAttr q = c.getAttr q := by
  cases c
  simp [XmlTree.setAttr, XmlTree.getAttr, XmlTree.attrs,
    lookupAttrList_setAttrList_other _ _ _ _ hq]

/-- In-place update fails exactly when the search fails. -/
theorem updateFirstWhere_none_iff (q : XmlTree → Prop) [DecidablePred q]
    (f : XmlTree → XmlTree) (cs : List XmlTree) :
    updateFirstWhere q f cs = none ↔ findFirstWhere q cs = none := by
  induction cs with
  | nil => simp [updateFirstWhere, findFirstWhere]
  | cons c rest ih =>
    by_cases h : q c
    · simp [updateFirstWhere, findFirstWhere, h]
    · simp [updateFirstWhere, findFirstWhere, h, ih]

/-- A successful in-place update rewrites exactly the first match: the first
match of the original list exists, and (when `f` preserves the predicate)
the first match of the updated list is its image. -/
theorem updateFirstWhere_find (q : XmlTree → Prop) [DecidablePred q]
    (f : XmlTree → XmlTree) (hf : ∀ c, q c → q (f c)) :
    ∀ (cs cs' : List XmlTree), updateFirstWhere q f cs = some cs' →
      ∃ c, findFirstWhere q cs = some c ∧ findFirstWhere q cs' = some (f c) := by
  intro cs
  induction cs with
  | nil =>
    intro cs' h
    simp [updateFirstWhere] at h
  | cons c rest ih =>
    intro cs' h
    by_cases hq : q c
    · rw [updateFirstWhere, if_pos hq] at h
      injection h with h
      subst h
      exact ⟨c, by simp [findFirstWhere, hq], by simp [findFirstWhere, hf c hq]⟩
    · rw [updateFirstWhere, if_neg hq] at h
      rcases hrec : updateFirstWhere q f rest with _ | rest'
      · rw [hrec] at h; cases h
      · rw [hrec] at h
        injection h with h
        subst h
        obtain ⟨c0, h1, h2⟩ := ih rest' hrec
        exact ⟨c0, by simp [findFirstWhere, hq, h1], by simp [findFirstWhere, hq, h2]⟩

/-- Searching a list extended with a matching element, when the original
list has no match, finds the new element. -/
theorem findFirstWhere_append (q : XmlTree → Prop) [DecidablePred q]
    (x : XmlTree) (hx : q x) :
    ∀ cs : List XmlTree, findFirstWhere q cs = none →
      findFirstWhere q (cs ++ [x]) = some x := by
  intro cs
  induction cs with
  | nil =>
    intro _
    simp [findFirstWhere, hx]
  | cons c rest ih =>
    intro h
    by_cases hq : q c
    · rw [findFirstWhere, if_pos hq] at h
      cases h
    · rw [findFirstWhere, if_neg hq] at h
      simp only [List.cons_append, findFirstWhere, if_neg hq]
      exact ih h

/-- An in-place update by a tag-preserving function does not change how many
children carry any given tag. -/
theorem updateFirstWhere_filter_tag_len (q : XmlTree → Prop) [DecidablePred q]
    (f : XmlTree → XmlTree) (hf : ∀ c, (f c).tag = c.tag) (t : String) :
    ∀ (cs cs' : List XmlTree), updateFirstWhere q f cs = some cs' →
      (cs'.filter (fun c => c.tag == t)).length =
        (cs.filter (fun c => c.tag == t)).length := by
  intro cs
  induction cs with
  | nil =>
    intro cs' h
    simp [updateFirstWhere] at h
  | cons c rest ih =>
    intro cs' h
    by_cases hq : q c
    · rw [updateFirstWhere, if_pos hq] at h
      injection h with h
      subst h
      simp only [List.filter_cons, hf c]
      by_cases ht : c.tag == t
      · simp [ht]
      · simp [ht]
    · rw [updateFirstWhere, if_neg hq] at h
      rcases hrec : updateFirstWhere q f rest with _ | rest'
      · rw [hrec] at h; cases h
      · rw [hrec] at h
        injection h with h
        subst h
        simp only [List.filter_cons]
        by_cases ht : c.tag == t
        · simp [ht, ih rest' hrec]
        · simp [ht, ih rest' hrec]

/-- `_add_or_update_property_element` leaves the element's tag unchanged. -/
theorem addOrUpdatePropertyEl_tag (pe : XmlTree) (n v : PyStr) :
    (addOrUpdatePropertyEl pe n v).tag = pe.tag := by
  cases pe with
  | elem tg a x children =>
    rw [addOrUpdatePropertyEl]
    rcases h : updateFirstWhere (isPropNamed (sanitizeXml n))
        (fun c => c.setAttr "value" (sanitizeXml v)) children with _ | children'
    · rfl
    · rfl

/-- Folding the merge loop over property pairs leaves the tag unchanged. -/
theorem foldl_mergePropStep_tag (props : List (PyStr × PyStr)) :
    ∀ pe : XmlTree, (props.foldl mergePropStep pe).tag = pe.tag := by
  induction props with
  | nil => intro pe; rfl
  | cons p rest ih =>
    intro pe
    rw [List.foldl_cons, ih]
    rw [mergePropStep]
    by_cases h : p.1 ∈ moblyPropertyValues
    · rw [if_pos h]
    · rw [if_neg h, addOrUpdatePropertyEl_tag]

/-- After `_add_or_update_property_element(pe, n, v)` the first property
child named `sanitize(n)` exists and carries value `sanitize(v)`. -/
theorem addOrUpdatePropertyEl_found (pe : XmlTree) (n v : PyStr) :
    ∃ el, findFirstWhere (isPropNamed (sanitizeXml n))
        (addOrUpdatePropertyEl pe n v).children = some el ∧
      isPropNamed (sanitizeXml n) el ∧
      el.getAttr "value" = some (sanitizeXml v) := by
  have hf : ∀ c, isPropNamed (sanitizeXml n) c →
      isPropNamed (sanitizeXml n) (c.setAttr "value" (sanitizeXml v)) := by
    intro c hc
    refine ⟨?_, ?_⟩
    · rw [XmlTree.tag_setAttr]; exact hc.1
    · rw [XmlTree.getAttr_setAttr_other c "value" "name" _ (by decide)]
      exact hc.2
  cases pe with
  | elem tg a x children =>
    rw [addOrUpdatePropertyEl]
    rcases h : updateFirstWhere (isPropNamed (sanitizeXml n))
        (fun c => c.setAttr "value" (sanitizeXml v)) children with _ | children'
    · refine ⟨.elem "property"
        [("name", sanitizeXml n), ("value", sanitizeXml v)] none [], ?_, ?_, ?_⟩
      · show findFirstWhere _ (children ++ [_]) = _
        exact findFirstWhere_append _ _ ⟨rfl, rfl⟩ children
          ((updateFirstWhere_none_iff _ _ children).mp h)
      · exact ⟨rfl, rfl⟩
      · rfl
    · obtain ⟨c0, hfind, hfind'⟩ := updateFirstWhere_find _ _ hf children children' h
      have hq : isPropNamed (sanitizeXml n) c0 := by
        clear hfind' h
        induction children with
        | nil => cases hfind
        | cons c rest ih =>
          rw [findFirstWhere] at hfind
          by_cases hqc : isPropNamed (sanitizeXml n) c
          · rw [if_pos hqc] at hfind
            injection hfind with hfind
            subst hfind
            exact hqc
          · rw [if_neg hqc] at hfind
            exact ih hfind
      exact ⟨c0.setAttr "value" (sanitizeXml v), hfind', hf c0 hq,
        XmlTree.getAttr_setAttr_same c0 "value" (sanitizeXml v)⟩

/-- When a property child with the sanitized name already exists,
`_add_or_update_property_element` keeps the number of property children
unchanged (it updates in place). -/
theorem addOrUpdatePropertyEl_count (pe : XmlTree) (n v : PyStr)
    (hfound : findFirstWhere (isPropNamed (sanitizeXml n)) pe.children ≠ none) :
    ((addOrUpdatePropertyEl pe n v).children.filter
        (fun c => c.tag == "property")).length =
      (pe.children.filter (fun c => c.tag == "property")).length := by
  cases pe with
  | elem tg a x children =>
    rw [addOrUpdatePropertyEl]
    rcases h : updateFirstWhere (isPropNamed (sanitizeXml n))
        (fun c => c.setAttr "value" (sanitizeXml v)) children with _ | children'
    · exact absurd ((updateFirstWhere_none_iff _ _ children).mp h) hfound
    · exact updateFirstWhere_filter_tag_len _ _
        (fun c => XmlTree.tag_setAttr c "value" (sanitizeXml v)) "property"
        children children' h

/-- The element on which the USER_DATA property loop operates: the first
`<properties>` child when one exists, else the freshly created empty one. -/
def propsBaseOf (e : XmlTree) : XmlTree :=
  match e.findChildByTag "properties" with
  | some pe => pe
  | none => emptyPropertiesElem

/-- After applying a USER_DATA entry body to an element, its first
`<properties>` child is exactly the merge-loop fold over the element's
original properties child (or over a fresh one). -/
theorem applyPropsToElement_propsChild (e : XmlTree) (props : List (PyStr × PyStr)) :
    (applyPropsToElement e props).findChildByTag "properties" =
      some (props.foldl mergePropStep (propsBaseOf e)) := by
  have hf : ∀ c : XmlTree, c.tag = "properties" →
      (props.foldl mergePropStep c).tag = "properties" := by
    intro c hc
    rw [foldl_mergePropStep_tag, hc]
  cases e with
  | elem tg a x children =>
    rw [applyPropsToElement]
    rcases h : updateFirstWhere (fun c => c.tag = "properties")
        (fun pe => props.foldl mergePropStep pe) children with _ | children'
    · have hnone : findFirstWhere (fun c : XmlTree => c.tag = "properties")
          children = none := (updateFirstWhere_none_iff _ _ children).mp h
      have : propsBaseOf (XmlTree.elem tg a x children) = emptyPropertiesElem := by
        rw [propsBaseOf]
        rw [show (XmlTree.elem tg a x children).findChildByTag "properties" =
          findFirstWhere (fun c : XmlTree => c.tag = "properties") children from rfl]
        rw [hnone]
      rw [this]
      show findFirstWhere _ (children ++ [_]) = _
      exact findFirstWhere_append _ _ (hf emptyPropertiesElem rfl) children hnone
    · obtain ⟨c0, hfind, hfind'⟩ := updateFirstWhere_find _ _ hf children children' h
      have : propsBaseOf (XmlTree.elem tg a x children) = c0 := by
        rw [propsBaseOf]
        rw [show (XmlTree.elem tg a x children).findChildByTag "properties" =
          findFirstWhere (fun c : XmlTree => c.tag = "properties") children from rfl]
        rw [hfind]
      rw [this]
      exact hfind'

/-- Number of `<property>` elements under an element's first `<properties>`
child (the property count the replace-semantics claim talks about). -/
def numPropertyElements (e : XmlTree) : Nat :=
  match e.findChildByTag "properties" with
  | none => 0
  | some pe => (pe.children.filter (fun c => c.tag == "property")).length

/-- The value of the first property with a given name under an element's
first `<properties>` child. -/
def propertyValue (e : XmlTree) (n : PyStr) : Option PyStr :=
  match e.findChildByTag "properties" with
  | none => none
  | some pe =>
    match findFirstWhere (isPropNamed n) pe.children with
    | none => none
    | some p => p.getAttr "value"

/-- C8 (Reserved-property protection and replace semantics): in the
USER_DATA merge loop, a pair whose key is a reserved Mobly property name is
skipped outright (the merge is the same as without that pair); for a
non-reserved key the property is set-or-replaced — setting the same key
twice leaves the number of property elements unchanged and the stored value
is the last one written (sanitized). -/
theorem c8_reserved_property_protection (e : XmlTree)
    (props : List (PyStr × PyStr)) (k v k2 v1 v2 : PyStr) :
    (k ∈ moblyPropertyValues →
      applyPropsToElement e ((k, v) :: props) = applyPropsToElement e props) ∧
    (k2 ∉ moblyPropertyValues →
      numPropertyElements (applyPropsToElement e [(k2, v1), (k2, v2)]) =
        numPropertyElements (applyPropsToElement e [(k2, v1)]) ∧
      propertyValue (applyPropsToElement e [(k2, v1), (k2, v2)])
        (sanitizeXml k2) = some (sanitizeXml v2)) := by
  constructor
  · intro hk
    have hfeq : (fun pe : XmlTree => ((k, v) :: props).foldl mergePropStep pe) =
        (fun pe : XmlTree => props.foldl mergePropStep pe) := by
      funext pe
      rw [List.foldl_cons, mergePropStep, if_pos hk]
    cases e with
    | elem tg a x children =>
      rw [applyPropsToElement, applyPropsToElement, hfeq, List.foldl_cons,
        mergePropStep, if_pos hk]
  · intro hk2
    have hs : ∀ (pe : XmlTree) (w : PyStr),
        mergePropStep pe (k2, w) = addOrUpdatePropertyEl pe k2 w := by
      intro pe w
      rw [mergePropStep, if_neg hk2]
    have h2 := applyPropsToElement_propsChild e [(k2, v1), (k2, v2)]
    have h1 := applyPropsToElement_propsChild e [(k2, v1)]
    rw [List.foldl_cons, List.foldl_cons, List.foldl_nil, hs, hs] at h2
    rw [List.foldl_cons, List.foldl_nil, hs] at h1
    constructor
    · simp only [numPropertyElements, h2, h1]
      obtain ⟨el, hel, _, _⟩ :=
        addOrUpdatePropertyEl_found (propsBaseOf e) k2 v1
      exact addOrUpdatePropertyEl_count _ k2 v2 (by rw [hel]; simp)
    · simp only [propertyValue, h2]
      obtain ⟨el, hel, _, hval⟩ :=
        addOrUpdatePropertyEl_found (addOrUpdatePropertyEl (propsBaseOf e) k2 v1)
          k2 v2
      rw [hel]
      exact hval

/-- A bare testcase element with no properties child. -/
def c8Case : XmlTree := .elem "testcase" [] none []

/-- Witness for C8: on a bare testcase, setting `mobly_signature` from user
data is a no-op beyond creating the empty properties bag, and a non-reserved
key set twice keeps one property element holding the last value. -/
theorem c8_reserved_property_protection_witness :
    pystr "mobly_signature" ∈ moblyPropertyValues ∧
    applyPropsToElement c8Case [(pystr "mobly_signature", pystr "sig")] =
      applyPropsToElement c8Case [] ∧
    pystr "team" ∉ moblyPropertyValues ∧
    numPropertyElements (applyPropsToElement c8Case
        [(pystr "team", pystr "android"), (pystr "team", pystr "chrome")]) =
      numPropertyElements
        (applyPropsToElement c8Case [(pystr "team", pystr "android")]) ∧
    propertyValue (applyPropsToElement c8Case
        [(pystr "team", pystr "android"), (pystr "team", pystr "chrome")])
      (sanitizeXml (pystr "team")) = some (sanitizeXml (pystr "chrome")) :=
  ⟨by decide,
   (c8_reserved_property_protection c8Case [] (pystr "mobly_signature")
     (pystr "sig") (pystr "team") (pystr "android") (pystr "chrome")).1
     (by decide),
   by decide,
   ((c8_reserved_property_protection c8Case [] (pystr "mobly_signature")
     (pystr "sig") (pystr "team") (pystr "android") (pystr "chrome")).2
     (by decide)).1,
   ((c8_reserved_property_protection c8Case [] (pystr "mobly_signature")
     (pystr "sig") (pystr "team") (pystr "android") (pystr "chrome")).2
     (by decide)).2⟩

/-- Applying a single non-reserved property pair to an element stores its
sanitized value under its sanitized name. -/
theorem applyPropsToElement_propertyValue (c : XmlTree) (k v : PyStr)
    (hk : k ∉ moblyPropertyValues) :
    propertyValue (applyPropsToElement c [(k, v)]) (sanitizeXml k) =
      some (sanitizeXml v) := by
  have h := applyPropsToElement_propsChild c [(k, v)]
  rw [List.foldl_cons, List.foldl_nil, mergePropStep, if_neg hk] at h
  simp only [propertyValue, h]
  obtain ⟨el, hel, _, hval⟩ :=
    addOrUpdatePropertyEl_found (propsBaseOf c) k v
  rw [hel]
  exact hval

/-- C6 amended: a USER_DATA entry carrying a test name but no class name is
*not* ignored — `_find_all_elements` matches the xpath
`./testsuite/testcase[@name=...]` across every test suite, so after the
merge every testcase with that name, in every class, carries the entry's
(non-reserved) properties.  No exception is raised. -/
theorem c6_userdata_testname_without_class (root : XmlTree) (t k v : PyStr)
    (hk : k ∉ moblyPropertyValues) :
    ∀ s', s' ∈ (applyUserDataEntry root none (some t)
        (some [(k, v)])).children →
      s'.tag = "testsuite" →
      ∀ c', c' ∈ s'.children → c'.tag = "testcase" →
        c'.getAttr "name" = some t →
        propertyValue c' (sanitizeXml k) = some (sanitizeXml v) := by
  intro s' hs' hstag c' hc' hctag hcname
  cases root with
  | elem tg a x children =>
    have hs'' : s' ∈ children.map (fun suite =>
        if suite.tag = "testsuite" ∧ suiteNameMatches none suite then
          suite.mapChildren (fun tc =>
            if tc.tag = "testcase" ∧ tc.getAttr "name" = some t then
              applyPropsToElement tc [(k, v)]
            else tc)
        else suite) := hs'
    obtain ⟨s, _, hfs⟩ := List.mem_map.mp hs''
    by_cases hcond : s.tag = "testsuite" ∧ suiteNameMatches none s
    · rw [if_pos hcond] at hfs
      subst hfs
      cases s with
      | elem stg sa sx schildren =>
        have hc'' : c' ∈ schildren.map (fun tc =>
            if tc.tag = "testcase" ∧ tc.getAttr "name" = some t then
              applyPropsToElement tc [(k, v)]
            else tc) := hc'
        obtain ⟨c, _, hgc⟩ := List.mem_map.mp hc''
        by_cases hccond : c.tag = "testcase" ∧ c.getAttr "name" = some t
        · rw [if_pos hccond] at hgc
          subst hgc
          exact applyPropsToElement_propertyValue c k v hk
        · rw [if_neg hccond] at hgc
          subst hgc
          exact absurd ⟨hctag, hcname⟩ hccond
    · rw [if_neg hcond] at hfs
      subst hfs
      exact absurd ⟨hstag, rfl⟩ hcond

/-- A Mobly root with one class suite containing one testcase and no
properties anywhere. -/
def c6Root : XmlTree :=
  .elem "testsuite" [("name", pystr "MoblyTest")] none
    [.elem "testsuite" [("name", pystr "FooTest")] none
      [.elem "testcase" [("name", pystr "test_a")] none []]]

/-- The testcase of `c6Root` after the USER_DATA entry `{test: test_a,
properties: {team: android}}` (no class name) has been applied. -/
def c6ExpectedCase : XmlTree :=
  .elem "testcase" [("name", pystr "test_a")] none
    [.elem "properties" [] none
      [.elem "property" [("name", pystr "team"), ("value", pystr "android")]
        none []]]

/-- Counterexample to C6 as stated: the USER_DATA entry with a test name and
no class name is *applied*, not ignored — the matching testcase receives the
`team` property (and no exception is raised; the application is total). -/
theorem c6_counterexample :
    applyUserDataEntry c6Root none (some (pystr "test_a"))
        (some [(pystr "team", pystr "android")]) =
      .elem "testsuite" [("name", pystr "MoblyTest")] none
        [.elem "testsuite" [("name", pystr "FooTest")] none [c6ExpectedCase]] ∧
    propertyValue c6ExpectedCase (pystr "team") = some (pystr "android") ∧
    propertyValue (XmlTree.elem "testcase" [("name", pystr "test_a")] none [])
      (pystr "team") = none :=
  ⟨rfl, rfl, rfl⟩

/-- Witness for the amended C6: instantiating the theorem on `c6Root` with
the non-reserved key `team` shows the concrete resulting testcase carries
the property. -/
theorem c6_userdata_testname_without_class_witness :
    propertyValue c6ExpectedCase (sanitizeXml (pystr "team")) =
      some (sanitizeXml (pystr "android")) :=
  c6_userdata_testname_without_class c6Root (pystr "test_a") (pystr "team")
    (pystr "android") (by decide)
    (.elem "testsuite" [("name", pystr "FooTest")] none [c6ExpectedCase])
    (List.mem_singleton.mpr rfl) rfl c6ExpectedCase
    (List.mem_singleton.mpr rfl) rfl rfl

/-- Stripping illegal XML code points is idempotent. -/
theorem sanitizeXml_idem (s : PyStr) : sanitizeXml (sanitizeXml s) = sanitizeXml s := by
  simp [sanitizeXml, List.filter_filter]

/-- An in-place update only rewrites one element: every element of the
result was in the original list or is the image of one. -/
theorem updateFirstWhere_mem (q : XmlTree → Prop) [DecidablePred q]
    (f : XmlTree → XmlTree) :
    ∀ (cs cs' : List XmlTree), updateFirstWhere q f cs = some cs' →
      ∀ x ∈ cs', x ∈ cs ∨ ∃ y, y ∈ cs ∧ x = f y := by
  intro cs
  induction cs with
  | nil =>
    intro cs' h
    simp [updateFirstWhere] at h
  | cons c rest ih =>
    intro cs' h x hx
    by_cases hq : q c
    · rw [updateFirstWhere, if_pos hq] at h
      injection h with h
      subst h
      rcases List.mem_cons.mp hx with h' | h'
      · exact Or.inr ⟨c, List.mem_cons_self c rest, h'⟩
      · exact Or.inl (List.mem_cons_of_mem c h')
    · rw [updateFirstWhere, if_neg hq] at h
      rcases hrec : updateFirstWhere q f rest with _ | rest'
      · rw [hrec] at h; cases h
      · rw [hrec] at h
        injection h with h
        subst h
        rcases List.mem_cons.mp hx with h' | h'
        · exact Or.inl (h' ▸ List.mem_cons_self c rest)
        · rcases ih rest' hrec x h' with hl | ⟨y, hy, hxy⟩
          · exact Or.inl (List.mem_cons_of_mem c hl)
          · exact Or.inr ⟨y, List.mem_cons_of_mem c hy, hxy⟩

/-- Cleanliness of one property element: its name and value attributes are
fixed points of the illegal-XML strip. -/
def propElemClean (c : XmlTree) : Prop :=
  (∀ s, c.getAttr "name" = some s → sanitizeXml s = s) ∧
  (∀ s, c.getAttr "value" = some s → sanitizeXml s = s)

/-- C9 amended: `_add_or_update_property_element` is the only sanitizing
emitter — it strips the illegal-XML set (control characters, surrogates,
U+FFFE/U+FFFF) from the property name and value it writes, so a properties
element whose children are clean stays clean under any property update.
(Other textual fields of the tree are *not* XML-sanitized; see the
counterexample.) -/
theorem c9_output_sanitization (pe : XmlTree) (n v : PyStr)
    (hc : ∀ c ∈ pe.children, propElemClean c) :
    ∀ c ∈ (addOrUpdatePropertyEl pe n v).children, propElemClean c := by
  cases pe with
  | elem tg a x children =>
    intro c hx
    rw [addOrUpdatePropertyEl] at hx
    rcases h : updateFirstWhere (isPropNamed (sanitizeXml n))
        (fun c => c.setAttr "value" (sanitizeXml v)) children with _ | children'
    · rw [h] at hx
      dsimp only [XmlTree.children] at hx
      rcases List.mem_append.mp hx with h' | h'
      · exact hc c h'
      · rcases List.mem_singleton.mp h' with rfl
        constructor
        · intro s hs
          injection hs with hs
          rw [← hs, sanitizeXml_idem]
        · intro s hs
          injection hs with hs
          rw [← hs, sanitizeXml_idem]
    · rw [h] at hx
      dsimp only [XmlTree.children] at hx
      rcases updateFirstWhere_mem _ _ children children' h c hx with h' | ⟨y, hy, hxy⟩
      · exact hc c h'
      · subst hxy
        obtain ⟨hyn, hyv⟩ := hc y hy
        constructor
        · intro s hs
          rw [XmlTree.getAttr_setAttr_other y "value" "name" _ (by decide)] at hs
          exact hyn s hs
        · intro s hs
          rw [XmlTree.getAttr_setAttr_same] at hs
          injection hs with hs
          rw [← hs, sanitizeXml_idem]

/-- A Fail record whose details carry a surrogate code point (U+D800),
which the YAML-level strip does not remove. -/
def c9Entry : RecordEntry :=
  ⟨pystr "FooTest", pystr "test_a", none, none, some MoblyResult.fail, 1000,
   1500, some (pystr "boom" ++ [0xd800]), none, none, none, none⟩

/-- The failure message the converter emits for `c9Entry`: it still carries
the surrogate code point. -/
def c9Msg : PyStr := pystr "Details: boom" ++ [0xd800]

/-- Counterexample to C9 as stated: the `message` attribute of the emitted
`<failure>` child keeps the surrogate code point — it survives the
YAML-level strip on input and `_process_record` applies no XML-level strip
to attribute values outside property elements. -/
theorem c9_counterexample :
    ((processRecord c9Entry none).findChildByTag "failure").bind
      (fun f => f.getAttr "message") = some c9Msg ∧
    sanitizeYaml c9Msg = c9Msg ∧
    sanitizeXml c9Msg ≠ c9Msg :=
  ⟨rfl, rfl, by decide⟩

/-- Witness for the amended C9: updating an empty properties bag with a
name carrying a surrogate and a value carrying a control character yields a
property element whose stored name and value are clean. -/
theorem c9_output_sanitization_witness :
    propElemClean (XmlTree.elem "property"
      [("name", sanitizeXml (pystr "k" ++ [0xd800])),
       ("value", sanitizeXml (pystr "v" ++ [0x07]))] none []) :=
  c9_output_sanitization emptyPropertiesElem (pystr "k" ++ [0xd800])
    (pystr "v" ++ [0x07]) (fun c hcm => absurd hcm (List.not_mem_nil c)) _
    (List.mem_singleton.mpr rfl)

/-- Search success is existence of a matching element. -/
theorem findFirstWhere_isSome_iff (q : XmlTree → Prop) [DecidablePred q]
    (cs : List XmlTree) :
    (findFirstWhere q cs).isSome ↔ ∃ c ∈ cs, q c := by
  induction cs with
  | nil => simp [findFirstWhere]
  | cons c rest ih =>
    by_cases h : q c
    · simp [findFirstWhere, h]
    · simp only [findFirstWhere, if_neg h, ih]
      constructor
      · intro ⟨c0, hc0, hq0⟩
        exact ⟨c0, List.mem_cons_of_mem c hc0, hq0⟩
      · intro ⟨c0, hc0, hq0⟩
        rcases List.mem_cons.mp hc0 with h' | h'
        · subst h'; exact absurd hq0 h
        · exact ⟨c0, h', hq0⟩

/-- The uploader classifies a testcase node as Failed exactly when it has a
direct `<failure>` or `<error>` child, regardless of its `result`
attribute. -/
theorem caseStatusFromXml_failed_iff (tc : XmlTree) :
    caseStatusFromXml tc = Status.failed ↔
      ((∃ c ∈ tc.children, c.tag = "failure") ∨
       (∃ c ∈ tc.children, c.tag = "error")) := by
  by_cases h : (tc.findChildByTag "failure").isSome ∨
      (tc.findChildByTag "error").isSome
  · rw [caseStatusFromXml, if_pos h]
    constructor
    · intro _
      rcases h with h | h
      · exact Or.inl ((findFirstWhere_isSome_iff _ tc.children).mp h)
      · exact Or.inr ((findFirstWhere_isSome_iff _ tc.children).mp h)
    · intro _
      rfl
  · rw [caseStatusFromXml, if_neg h]
    constructor
    · intro hr
      by_cases hs : tc.getAttr "result" = some (pystr "skipped")
      · rw [if_pos hs] at hr; cases hr
      · rw [if_neg hs] at hr; cases hr
    · intro hor
      exfalso
      apply h
      rcases hor with ⟨c0, hc0, hq0⟩ | ⟨c0, hc0, hq0⟩
      · exact Or.inl ((findFirstWhere_isSome_iff _ tc.children).mpr ⟨c0, hc0, hq0⟩)
      · exact Or.inr ((findFirstWhere_isSome_iff _ tc.children).mpr ⟨c0, hc0, hq0⟩)

/-- C10 (implicit): the uploader's per-case re-aggregation classifies a case
node as Failed exactly when it contains at least one direct failure or error
child, overriding the skipped result attribute; consequently every
interrupted record (null result, which always gets the synthetic error
child) and every Skip record with non-empty extra errors is re-aggregated as
Failed, never as Skipped. -/
theorem c10_failure_child_overrides (tc : XmlTree) (e1 e2 : RecordEntry)
    (rn rn2 : Option ReranNode) :
    (caseStatusFromXml tc = Status.failed ↔
      ((∃ c ∈ tc.children, c.tag = "failure") ∨
       (∃ c ∈ tc.children, c.tag = "error"))) ∧
    (e1.result = none →
      caseStatusFromXml (processRecord e1 rn) = Status.failed) ∧
    (∀ x xs, e2.result = some MoblyResult.skip →
      e2.extraErrors = some (x :: xs) →
      caseStatusFromXml (processRecord e2 rn2) = Status.failed ∧
      caseStatusFromXml (processRecord e2 rn2) ≠ Status.skipped) := by
  have key : ∀ t : XmlTree, (∃ c ∈ t.children, c.tag = "error") →
      caseStatusFromXml t = Status.failed := fun t h =>
    (caseStatusFromXml_failed_iff t).mpr (Or.inr h)
  refine ⟨caseStatusFromXml_failed_iff tc, ?_, ?_⟩
  · rcases e1 with ⟨cn, tn, sig, par, res, bt, et, det, uid, tst, st, ee⟩
    intro h1
    dsimp only at h1
    subst h1
    apply key
    refine ⟨XmlTree.elem "error" [("message", testInterruptedMessage)]
      (some testInterruptedMessage) [], ?_, rfl⟩
    rcases rn with _ | ⟨rtn, otn, idx, nt⟩
    · exact List.mem_cons_of_mem _
        (List.mem_append_left _ (List.mem_singleton.mpr rfl))
    · rcases nt with _ | _ <;>
        exact List.mem_cons_of_mem _
          (List.mem_append_left _ (List.mem_singleton.mpr rfl))
  · rcases e2 with ⟨cn, tn, sig, par, res, bt, et, det, uid, tst, st, ee⟩
    intro x xs h1 h2
    dsimp only at h1 h2
    subst h1
    subst h2
    have hfailed : caseStatusFromXml
        (processRecord ⟨cn, tn, sig, par, some MoblyResult.skip, bt, et, det,
          uid, tst, st, some (x :: xs)⟩ rn2) = Status.failed := by
      apply key
      refine ⟨XmlTree.elem "error"
        [("message", pystr "Error occurred at " ++ x.position ++
          pystr ".\nDetails: " ++ pyFormatOpt x.details)] x.stackTrace [],
        ?_, rfl⟩
      rcases rn2 with _ | ⟨rtn, otn, idx, nt⟩
      · exact List.mem_cons_of_mem _
          (List.mem_map_of_mem _ (List.mem_cons_self x xs))
      · rcases nt with _ | _ <;>
          exact List.mem_cons_of_mem _
            (List.mem_map_of_mem _ (List.mem_cons_self x xs))
    refine ⟨hfailed, ?_⟩
    rw [hfailed]
    decide

/-- A Skip record carrying one extra error. -/
def c10SkipEntry : RecordEntry :=
  ⟨pystr "FooTest", pystr "test_a", none, none, some MoblyResult.skip, 1000,
   1500, some (pystr "not ready"), none, none, none,
   some [⟨pystr "teardown_class", some (pystr "cleanup blew up"), none⟩]⟩

/-- An interrupted record (null result). -/
def c10InterruptedEntry : RecordEntry :=
  ⟨pystr "FooTest", pystr "test_b", none, none, none, 1000, 1500, none, none,
   none, none, none⟩

/-- Witness for C10: a concrete interrupted record and a concrete Skip
record with an extra error are both re-aggregated as Failed. -/
theorem c10_failure_child_overrides_witness :
    caseStatusFromXml (processRecord c10InterruptedEntry none) =
      Status.failed ∧
    caseStatusFromXml (processRecord c10SkipEntry none) = Status.failed ∧
    caseStatusFromXml (processRecord c10SkipEntry none) ≠ Status.skipped :=
  ⟨(c10_failure_child_overrides emptyPropertiesElem c10InterruptedEntry
      c10SkipEntry none none).2.1 rfl,
   ((c10_failure_child_overrides emptyPropertiesElem c10InterruptedEntry
      c10SkipEntry none none).2.2 _ _ rfl rfl).1,
   ((c10_failure_child_overrides emptyPropertiesElem c10InterruptedEntry
      c10SkipEntry none none).2.2 _ _ rfl rfl).2⟩
